import Mathlib

/-!
# MAGE memory stacks

A shallow embedding of `MAGE/Utilities/src/memory/memory_stack.cpp`
(`SingleEndedMemoryStack`, `DoubleEndedMemoryStack`) and of the allocator of
`MAGE/Utilities/src/memory/memory_arena.hpp` (`MemoryArena::Allocator`), and
the properties of the allocation layer proved about them.

Machine words (`size_t`, `uintptr_t`) are natural numbers; every arithmetic
operation of the source that can wrap is written with an explicit reduction
modulo `WORD = 2 ^ 64`.  A `void*` result of a stack is an `Option Nat`:
`none` is `nullptr`, `some a` is the address `a`.  A fatal `Assert` is the
`none` result of a state transformer.

The member variables of `MemoryArena` come from `memory_arena.hpp`; its member
functions are defined in files that are not among the sources and are modelled
from the specification, in the specification's own (unbounded) arithmetic.  A
pointer of the arena is an address, `0` being the null pointer.
-/

namespace mage

/-! ## Machine words -/

/-- Number of values of the unsigned word types `size_t` and `uintptr_t`
(64-bit target). -/
def WORD : Nat := 2 ^ 64

/-- Unsigned machine addition `a + b` on words. -/
def wadd (a b : Nat) : Nat := (a + b) % WORD

/-- Unsigned machine subtraction `a - b` on words (wraps below zero). -/
def wsub (a b : Nat) : Nat := (a + (WORD - b % WORD)) % WORD

/-- Modelled from the spec: the `Assert` macro is defined in
`logging/error.hpp`, which is not among the sources.  The spec makes a
violated assertion a fatal error, not a recoverable condition: `none` is the
aborted call, `some ()` the call that goes on. -/
def Assert (condition : Bool) : Option Unit :=
  if condition then some () else none

/-! ## SingleEndedMemoryStack -/

/-- The member variables of `SingleEndedMemoryStack`. -/
structure SingleEndedMemoryStack where
  /-- The alignment in bytes. -/
  m_alignment : Nat
  /-- The size (capacity) of the region in bytes. -/
  m_size : Nat
  /-- The address of the first byte of the region. -/
  m_begin : Nat
  /-- The bump cursor. -/
  m_current : Nat
deriving DecidableEq, Repr

/-- Modelled from the spec: `GetAvailableSize` is declared in
`memory_stack.hpp`, which is not among the sources.  The spec gives the
quantity compared with the requested size in `Alloc` as
`capacity − (current − begin)`; both subtractions are on `size_t`. -/
def SingleEndedMemoryStack.GetAvailableSize (s : SingleEndedMemoryStack) : Nat :=
  wsub s.m_size (wsub s.m_current s.m_begin)

/-- `SingleEndedMemoryStack::Reset` (memory_stack.cpp:45-47). -/
def SingleEndedMemoryStack.Reset (s : SingleEndedMemoryStack) : SingleEndedMemoryStack :=
  { s with m_current := s.m_begin }

/-- `SingleEndedMemoryStack::RollBack` (memory_stack.cpp:49-53).  The fatal
`Assert` is the result `none`. -/
def SingleEndedMemoryStack.RollBack (s : SingleEndedMemoryStack) (ptr : Nat) :
    Option SingleEndedMemoryStack :=
  match Assert (decide (s.m_begin ≤ ptr ∧ ptr ≤ s.m_current)) with
  | none => none
  | some _ => some { s with m_current := ptr }

/-- `SingleEndedMemoryStack::Alloc` (memory_stack.cpp:55-64): the returned
pointer and the stack after the call. -/
def SingleEndedMemoryStack.Alloc (s : SingleEndedMemoryStack) (size : Nat) :
    Option Nat × SingleEndedMemoryStack :=
  if s.GetAvailableSize < size then
    (none, s)
  else
    (some s.m_current, { s with m_current := wadd s.m_current size })

/-- The constructor `SingleEndedMemoryStack::SingleEndedMemoryStack`
(memory_stack.cpp:22-36).  `ptr` is the value returned by
`AllocAligned(m_size, m_alignment)` (`0` is the null pointer); `none` is the
thrown `std::bad_alloc`. -/
def SingleEndedMemoryStack.construct (size alignment ptr : Nat) :
    Option SingleEndedMemoryStack :=
  if ptr = 0 then
    none
  else
    some (SingleEndedMemoryStack.Reset
      { m_alignment := alignment, m_size := size, m_begin := ptr, m_current := 0 })

/-- The data-model invariant `begin ≤ current ≤ begin + capacity`. -/
def SingleEndedMemoryStack.Inv (s : SingleEndedMemoryStack) : Prop :=
  s.m_begin ≤ s.m_current ∧ s.m_current ≤ s.m_begin + s.m_size

instance (s : SingleEndedMemoryStack) : Decidable s.Inv := by
  unfold SingleEndedMemoryStack.Inv; infer_instance

/-- The region `[begin, begin + capacity)` lies in the address space: its
one-past-the-end address is a machine word (`begin + capacity` does not
overflow). -/
def SingleEndedMemoryStack.InAddressSpace (s : SingleEndedMemoryStack) : Prop :=
  s.m_begin + s.m_size < WORD

instance (s : SingleEndedMemoryStack) : Decidable s.InAddressSpace := by
  unfold SingleEndedMemoryStack.InAddressSpace; infer_instance

/-- Every member variable is a value of its machine type (`size_t` or
`uintptr_t`). -/
def SingleEndedMemoryStack.WellTyped (s : SingleEndedMemoryStack) : Prop :=
  s.m_alignment < WORD ∧ s.m_size < WORD ∧ s.m_begin < WORD ∧ s.m_current < WORD

instance (s : SingleEndedMemoryStack) : Decidable s.WellTyped := by
  unfold SingleEndedMemoryStack.WellTyped; infer_instance

/-- A sequence of `Alloc` calls, in order: the returned pointers and the final
stack. -/
def SingleEndedMemoryStack.AllocSeq (s : SingleEndedMemoryStack) :
    List Nat → List (Option Nat) × SingleEndedMemoryStack
  | [] => ([], s)
  | size :: rest =>
    ((s.Alloc size).1 :: ((s.Alloc size).2.AllocSeq rest).1,
      ((s.Alloc size).2.AllocSeq rest).2)

/-- One call on a `SingleEndedMemoryStack`. -/
inductive SingleEndedMemoryStack.Call where
  /-- `Alloc(size)`. -/
  | Alloc (size : Nat)
  /-- `Reset()`. -/
  | Reset
  /-- `RollBack(ptr)`. -/
  | RollBack (ptr : Nat)
deriving DecidableEq, Repr

/-- The stack after one call; `none` when the call's `Assert` fires. -/
def SingleEndedMemoryStack.call (s : SingleEndedMemoryStack) :
    SingleEndedMemoryStack.Call → Option SingleEndedMemoryStack
  | .Alloc size => some (s.Alloc size).2
  | .Reset => some s.Reset
  | .RollBack ptr => s.RollBack ptr

/-- The stack after a sequence of calls; `none` when some `Assert` fires. -/
def SingleEndedMemoryStack.callSeq (s : SingleEndedMemoryStack) :
    List SingleEndedMemoryStack.Call → Option SingleEndedMemoryStack
  | [] => some s
  | c :: rest =>
    match s.call c with
    | none => none
    | some s' => s'.callSeq rest

/-! ## DoubleEndedMemoryStack -/

/-- The member variables of `DoubleEndedMemoryStack`. -/
structure DoubleEndedMemoryStack where
  /-- The alignment in bytes. -/
  m_alignment : Nat
  /-- The size (capacity) of the region in bytes. -/
  m_size : Nat
  /-- The address of the first byte of the region. -/
  m_begin : Nat
  /-- The low bump cursor. -/
  m_current_low : Nat
  /-- The high bump cursor. -/
  m_current_high : Nat
deriving DecidableEq, Repr

/-- Modelled from the spec: `GetAvailableSize` is declared in
`memory_stack.hpp`, which is not among the sources.  The spec gives the
quantity compared with the requested size in `AllocLow` and `AllocHigh` as
`current_high − current_low` (on `size_t`). -/
def DoubleEndedMemoryStack.GetAvailableSize (s : DoubleEndedMemoryStack) : Nat :=
  wsub s.m_current_high s.m_current_low

/-- `DoubleEndedMemoryStack::Reset` (memory_stack.cpp:97-100). -/
def DoubleEndedMemoryStack.Reset (s : DoubleEndedMemoryStack) : DoubleEndedMemoryStack :=
  { s with
    m_current_low := s.m_begin
    m_current_high := wsub (wadd s.m_begin s.m_size) 1 }

/-- `DoubleEndedMemoryStack::RollBackLow` (memory_stack.cpp:102-106).  The
fatal `Assert` is the result `none`. -/
def DoubleEndedMemoryStack.RollBackLow (s : DoubleEndedMemoryStack) (ptr : Nat) :
    Option DoubleEndedMemoryStack :=
  match Assert (decide (s.m_begin ≤ ptr ∧ ptr ≤ s.m_current_low)) with
  | none => none
  | some _ => some { s with m_current_low := ptr }

/-- `DoubleEndedMemoryStack::RollBackHigh` (memory_stack.cpp:108-112).  The
fatal `Assert` is the result `none`. -/
def DoubleEndedMemoryStack.RollBackHigh (s : DoubleEndedMemoryStack) (ptr : Nat) :
    Option DoubleEndedMemoryStack :=
  match Assert (decide (s.m_current_high ≤ ptr ∧ ptr < wadd s.m_begin s.m_size)) with
  | none => none
  | some _ => some { s with m_current_high := ptr }

/-- `DoubleEndedMemoryStack::AllocLow` (memory_stack.cpp:114-123): the
returned pointer and the stack after the call. -/
def DoubleEndedMemoryStack.AllocLow (s : DoubleEndedMemoryStack) (size : Nat) :
    Option Nat × DoubleEndedMemoryStack :=
  if s.GetAvailableSize < size then
    (none, s)
  else
    (some s.m_current_low, { s with m_current_low := wadd s.m_current_low size })

/-- `DoubleEndedMemoryStack::AllocHigh` (memory_stack.cpp:125-134): the
returned pointer and the stack after the call. -/
def DoubleEndedMemoryStack.AllocHigh (s : DoubleEndedMemoryStack) (size : Nat) :
    Option Nat × DoubleEndedMemoryStack :=
  if s.GetAvailableSize < size then
    (none, s)
  else
    (some s.m_current_high, { s with m_current_high := wsub s.m_current_high size })

/-- The constructor `DoubleEndedMemoryStack::DoubleEndedMemoryStack`
(memory_stack.cpp:73-88).  `ptr` is the value returned by
`AllocAligned(m_size, m_alignment)` (`0` is the null pointer); `none` is the
thrown `std::bad_alloc`. -/
def DoubleEndedMemoryStack.construct (size alignment ptr : Nat) :
    Option DoubleEndedMemoryStack :=
  if ptr = 0 then
    none
  else
    some (DoubleEndedMemoryStack.Reset
      { m_alignment := alignment, m_size := size, m_begin := ptr,
        m_current_low := 0, m_current_high := 0 })

/-- The side of a `DoubleEndedMemoryStack` an allocation is made from. -/
inductive Side where
  /-- `AllocLow`. -/
  | low
  /-- `AllocHigh`. -/
  | high
deriving DecidableEq, Repr

/-- `AllocLow(size)` or `AllocHigh(size)`, by side. -/
def DoubleEndedMemoryStack.AllocSide (s : DoubleEndedMemoryStack) :
    Side × Nat → Option Nat × DoubleEndedMemoryStack
  | (Side.low, size) => s.AllocLow size
  | (Side.high, size) => s.AllocHigh size

/-- The stack after an interleaved sequence of `AllocLow`/`AllocHigh` calls. -/
def DoubleEndedMemoryStack.AllocSeq (s : DoubleEndedMemoryStack) :
    List (Side × Nat) → DoubleEndedMemoryStack
  | [] => s
  | c :: rest => (s.AllocSide c).2.AllocSeq rest

/-- The sum of the sizes of the calls that succeed when an interleaved
sequence of `AllocLow`/`AllocHigh` calls is made on `s`. -/
def DoubleEndedMemoryStack.SuccessfulSize (s : DoubleEndedMemoryStack) :
    List (Side × Nat) → Nat
  | [] => 0
  | c :: rest =>
    (if (s.AllocSide c).1 = none then 0 else c.2) +
      (s.AllocSide c).2.SuccessfulSize rest

/-- The region `[begin, begin + capacity)` lies in the address space. -/
def DoubleEndedMemoryStack.InAddressSpace (s : DoubleEndedMemoryStack) : Prop :=
  s.m_begin + s.m_size < WORD

instance (s : DoubleEndedMemoryStack) : Decidable s.InAddressSpace := by
  unfold DoubleEndedMemoryStack.InAddressSpace; infer_instance

/-- The cursors are ordered inside the region:
`begin ≤ current_low ≤ current_high < begin + capacity`. -/
def DoubleEndedMemoryStack.Inv (s : DoubleEndedMemoryStack) : Prop :=
  s.m_begin ≤ s.m_current_low ∧ s.m_current_low ≤ s.m_current_high ∧
    s.m_current_high < s.m_begin + s.m_size

instance (s : DoubleEndedMemoryStack) : Decidable s.Inv := by
  unfold DoubleEndedMemoryStack.Inv; infer_instance

/-- One call on a `DoubleEndedMemoryStack`. -/
inductive DoubleEndedMemoryStack.Call where
  /-- `AllocLow(size)`. -/
  | AllocLow (size : Nat)
  /-- `AllocHigh(size)`. -/
  | AllocHigh (size : Nat)
  /-- `Reset()`. -/
  | Reset
  /-- `RollBackLow(ptr)`. -/
  | RollBackLow (ptr : Nat)
  /-- `RollBackHigh(ptr)`. -/
  | RollBackHigh (ptr : Nat)
deriving DecidableEq, Repr

/-- The stack after one call; `none` when the call's `Assert` fires. -/
def DoubleEndedMemoryStack.call (s : DoubleEndedMemoryStack) :
    DoubleEndedMemoryStack.Call → Option DoubleEndedMemoryStack
  | .AllocLow size => some (s.AllocLow size).2
  | .AllocHigh size => some (s.AllocHigh size).2
  | .Reset => some s.Reset
  | .RollBackLow ptr => s.RollBackLow ptr
  | .RollBackHigh ptr => s.RollBackHigh ptr

/-- The stack after a sequence of calls; `none` when some `Assert` fires. -/
def DoubleEndedMemoryStack.callSeq (s : DoubleEndedMemoryStack) :
    List DoubleEndedMemoryStack.Call → Option DoubleEndedMemoryStack
  | [] => some s
  | c :: rest =>
    match s.call c with
    | none => none
    | some s' => s'.callSeq rest

/-! ## MemoryArena -/

/-- `MemoryArena::MemoryBlock`, the pair `std::pair< size_t, U8 * >`
(memory_arena.hpp:437): `first` is the capacity of the block in bytes,
`second` the address of its first byte (`0` is the null pointer). -/
structure MemoryArena.MemoryBlock where
  /-- The capacity of the block in bytes. -/
  first : Nat
  /-- The address of the first byte of the block. -/
  second : Nat
deriving DecidableEq, Repr

/-- The member variables of `MemoryArena` (memory_arena.hpp:443-471). -/
structure MemoryArena where
  /-- The alignment in bytes. -/
  m_alignment : Nat
  /-- The maximum block size in bytes. -/
  m_maximum_block_size : Nat
  /-- The current block. -/
  m_current_block : MemoryArena.MemoryBlock
  /-- The current block position. -/
  m_current_block_pos : Nat
  /-- The used blocks, oldest first. -/
  m_used_blocks : List MemoryArena.MemoryBlock
  /-- The available blocks, drawn from the head. -/
  m_available_blocks : List MemoryArena.MemoryBlock
deriving DecidableEq, Repr

/-- `MemoryArena::GetCurrentBlockSize` (memory_arena.hpp:125-128). -/
def MemoryArena.GetCurrentBlockSize (a : MemoryArena) : Nat :=
  a.m_current_block.first

/-- `MemoryArena::GetCurrentBlockPtr` (memory_arena.hpp:144-147). -/
def MemoryArena.GetCurrentBlockPtr (a : MemoryArena) : Nat :=
  a.m_current_block.second

/-- Modelled from the spec: the constructor `MemoryArena::MemoryArena` is
defined in `memory_arena.cpp`, which is not among the sources.  By the spec a
block is created only when the arena needs space, so a fresh arena has no
block: a null current block of capacity 0 at position 0, no used and no
available blocks. -/
def MemoryArena.construct (maximum_block_size alignment : Nat) : MemoryArena :=
  { m_alignment := alignment
    m_maximum_block_size := maximum_block_size
    m_current_block := ⟨0, 0⟩
    m_current_block_pos := 0
    m_used_blocks := []
    m_available_blocks := [] }

/-- Modelled from the spec: `MemoryArena::GetTotalBlockSize` is defined in
`memory_arena.cpp`, which is not among the sources.  The spec: the sum of the
capacities across the current, the used and the available blocks. -/
def MemoryArena.GetTotalBlockSize (a : MemoryArena) : Nat :=
  a.m_current_block.first + (a.m_used_blocks.map (fun b => b.first)).sum +
    (a.m_available_blocks.map (fun b => b.first)).sum

/-- Modelled from the spec: `MemoryArena::Reset` is defined in
`memory_arena.cpp`, which is not among the sources.  The spec: moves the
current block (the block at hand, if any) and all used blocks onto the front
of the available blocks, most recently used first, clears the used blocks and
sets the current block position to 0. -/
def MemoryArena.Reset (a : MemoryArena) : MemoryArena :=
  { a with
    m_current_block := ⟨0, 0⟩
    m_current_block_pos := 0
    m_used_blocks := []
    m_available_blocks :=
      (if a.m_current_block.second = 0 then [] else [a.m_current_block]) ++
        a.m_used_blocks.reverse ++ a.m_available_blocks }

/-- Modelled from the spec: the search of `MemoryArena::Alloc`
(`memory_arena.cpp`, not among the sources) through the available blocks,
from the head, for the first block whose capacity is at least `need`: that
block and the remaining available blocks, or `none` when no block
qualifies. -/
def MemoryArena.takeFirstFit (need : Nat) :
    List MemoryArena.MemoryBlock → Option (MemoryArena.MemoryBlock × List MemoryArena.MemoryBlock)
  | [] => none
  | b :: rest =>
    if need ≤ b.first then
      some (b, rest)
    else
      match MemoryArena.takeFirstFit need rest with
      | none => none
      | some (c, rest') => some (c, b :: rest')

/-- Modelled from the spec: `MemoryArena::Alloc` is defined in
`memory_arena.cpp`, which is not among the sources.  The spec: if
`current_block_position + size ≤ current_block.capacity`, the call returns a
pointer at the current offset and advances the offset by `size`.  Otherwise
the current block, if any bytes of it are used, is pushed onto the used
blocks; the first available block of capacity at least
`max(size, maximum_block_size)` is taken, or, if none qualifies, a new block
of that capacity is allocated from the raw aligned allocator; that block
becomes the current block at position 0 and the allocation proceeds from it.
`raw` is the address the raw aligned allocator returns when it is called (`0`
when it fails); the call returns null only then, and the arena is then left
without a current block (the spec does not describe that state). -/
def MemoryArena.Alloc (a : MemoryArena) (size raw : Nat) : Nat × MemoryArena :=
  if a.m_current_block_pos + size ≤ a.m_current_block.first then
    (a.m_current_block.second + a.m_current_block_pos,
      { a with m_current_block_pos := a.m_current_block_pos + size })
  else
    match MemoryArena.takeFirstFit (max size a.m_maximum_block_size) a.m_available_blocks with
    | some (b, rest) =>
      (b.second,
        { a with
          m_current_block := b
          m_current_block_pos := size
          m_used_blocks :=
            if 0 < a.m_current_block_pos then a.m_used_blocks ++ [a.m_current_block]
            else a.m_used_blocks
          m_available_blocks := rest })
    | none =>
      if raw = 0 then
        (0,
          { a with
            m_current_block := ⟨0, 0⟩
            m_current_block_pos := 0
            m_used_blocks :=
              if 0 < a.m_current_block_pos then a.m_used_blocks ++ [a.m_current_block]
              else a.m_used_blocks })
      else
        (raw,
          { a with
            m_current_block := ⟨max size a.m_maximum_block_size, raw⟩
            m_current_block_pos := size
            m_used_blocks :=
              if 0 < a.m_current_block_pos then a.m_used_blocks ++ [a.m_current_block]
              else a.m_used_blocks })

/-- Modelled from the spec: `MemoryArena::AllocData< DataT >` is defined in
`memory_arena.tpp`, which is not among the sources.  The spec: requests
`Alloc(count * sizeof(T))` and returns its result; the optional construction
of the elements does not touch the arena.  `sizeofDataT` is `sizeof(DataT)`. -/
def MemoryArena.AllocData (a : MemoryArena) (sizeofDataT count : Nat)
    (initialization : Bool) (raw : Nat) : Nat × MemoryArena :=
  match initialization with
  -- the elements are default-constructed in place
  | true => a.Alloc (count * sizeofDataT) raw
  -- the memory is left uninitialized
  | false => a.Alloc (count * sizeofDataT) raw

/-- The blocks the arena owns: the current block when there is one, the used
blocks and the available blocks. -/
def MemoryArena.ownedBlocks (a : MemoryArena) : List MemoryArena.MemoryBlock :=
  (if a.m_current_block.second = 0 then [] else [a.m_current_block]) ++
    a.m_used_blocks ++ a.m_available_blocks

/-- A null block has capacity 0, for the current block and every used and
available block of the arena. -/
def MemoryArena.NullBlocksEmpty (a : MemoryArena) : Prop :=
  (a.m_current_block.second = 0 → a.m_current_block.first = 0) ∧
  (∀ b ∈ a.m_used_blocks, b.second = 0 → b.first = 0) ∧
  (∀ b ∈ a.m_available_blocks, b.second = 0 → b.first = 0)

/-- A sequence of `Alloc` calls, each with its size and the address the raw
aligned allocator would return to it: the returned pointers and the final
arena. -/
def MemoryArena.AllocSeq (a : MemoryArena) :
    List (Nat × Nat) → List Nat × MemoryArena
  | [] => ([], a)
  | c :: rest =>
    ((a.Alloc c.1 c.2).1 :: ((a.Alloc c.1 c.2).2.AllocSeq rest).1,
      ((a.Alloc c.1 c.2).2.AllocSeq rest).2)

/-- One call on a `MemoryArena`. -/
inductive MemoryArena.Call where
  /-- `Alloc(size)`, with the address the raw aligned allocator would
  return. -/
  | Alloc (size raw : Nat)
  /-- `AllocData< DataT >(count, initialization)`, with `sizeof(DataT)` and
  the address the raw aligned allocator would return. -/
  | AllocData (sizeofDataT count : Nat) (initialization : Bool) (raw : Nat)
  /-- `Reset()`. -/
  | Reset
deriving DecidableEq, Repr

/-- The arena after one call. -/
def MemoryArena.call (a : MemoryArena) : MemoryArena.Call → MemoryArena
  | .Alloc size raw => (a.Alloc size raw).2
  | .AllocData sizeofDataT count initialization raw =>
    (a.AllocData sizeofDataT count initialization raw).2
  | .Reset => a.Reset

/-- The arena after a sequence of calls. -/
def MemoryArena.callSeq (a : MemoryArena) : List MemoryArena.Call → MemoryArena
  | [] => a
  | c :: rest => (a.call c).callSeq rest

/-! ## MemoryArena::Allocator -/

/-- The member variable of `MemoryArena::Allocator< DataT >`
(memory_arena.hpp:409-412): the address of the memory arena the allocator is
bound to. -/
structure MemoryArena.Allocator (DataT : Type) where
  /-- A pointer to the memory arena of this allocator. -/
  m_memory_arena : Nat
deriving DecidableEq, Repr

/-- `MemoryArena::Allocator::operator==` (memory_arena.hpp:357-361). -/
def MemoryArena.Allocator.operatorEq {DataT DataU : Type}
    (a : MemoryArena.Allocator DataT) (rhs : MemoryArena.Allocator DataU) : Bool :=
  a.m_memory_arena == rhs.m_memory_arena

/-- `MemoryArena::Allocator::operator!=` (memory_arena.hpp:374-378). -/
def MemoryArena.Allocator.operatorNe {DataT DataU : Type}
    (a : MemoryArena.Allocator DataT) (rhs : MemoryArena.Allocator DataU) : Bool :=
  !(a.operatorEq rhs)

/-- The copy constructor `Allocator(const Allocator &)`
(memory_arena.hpp:221), defaulted: the new allocator has the member of the
given one. -/
def MemoryArena.Allocator.copyConstruct {DataT : Type}
    (allocator : MemoryArena.Allocator DataT) : MemoryArena.Allocator DataT :=
  { m_memory_arena := allocator.m_memory_arena }

/-- The move constructor `Allocator(Allocator &&)` (memory_arena.hpp:229),
defaulted: the new allocator has the member of the given one (moving a
pointer copies it). -/
def MemoryArena.Allocator.moveConstruct {DataT : Type}
    (allocator : MemoryArena.Allocator DataT) : MemoryArena.Allocator DataT :=
  { m_memory_arena := allocator.m_memory_arena }

/-- The converting constructor `Allocator(const Allocator< DataU > &)`
(memory_arena.hpp:239-241). -/
def MemoryArena.Allocator.convertConstruct {DataU : Type} (DataT : Type)
    (allocator : MemoryArena.Allocator DataU) : MemoryArena.Allocator DataT :=
  { m_memory_arena := allocator.m_memory_arena }

/-- `MemoryArena::Allocator::deallocate` (memory_arena.hpp:343-344), a `const`
member function with an empty body: the allocator and the arena it is bound
to after the call. -/
def MemoryArena.Allocator.deallocate {DataT : Type} (a : MemoryArena.Allocator DataT)
    (arena : MemoryArena) (_data _count : Nat) : MemoryArena.Allocator DataT × MemoryArena :=
  (a, arena)

/-! ## Frame conditions of the stacks -/

/-- The stack `s'` has the region of `s`: the same `begin`, capacity and
alignment. -/
def SingleEndedMemoryStack.SameRegion (s s' : SingleEndedMemoryStack) : Prop :=
  s'.m_begin = s.m_begin ∧ s'.m_size = s.m_size ∧ s'.m_alignment = s.m_alignment

instance (s s' : SingleEndedMemoryStack) : Decidable (s.SameRegion s') := by
  unfold SingleEndedMemoryStack.SameRegion; infer_instance

/-- The stack `s'` has the region of `s`: the same `begin`, capacity and
alignment. -/
def DoubleEndedMemoryStack.SameRegion (s s' : DoubleEndedMemoryStack) : Prop :=
  s'.m_begin = s.m_begin ∧ s'.m_size = s.m_size ∧ s'.m_alignment = s.m_alignment

instance (s s' : DoubleEndedMemoryStack) : Decidable (s.SameRegion s') := by
  unfold DoubleEndedMemoryStack.SameRegion; infer_instance

/-! ## Basic facts -/

theorem wsub_of_le {a b : Nat} (hb : b ≤ a) (ha : a < WORD) : wsub a b = a - b := by
  unfold wsub WORD at *
  omega

theorem wadd_of_lt {a b : Nat} (h : a + b < WORD) : wadd a b = a + b := by
  unfold wadd WORD at *
  omega

theorem SingleEndedMemoryStack.GetAvailableSize_eq (s : SingleEndedMemoryStack)
    (hinv : s.Inv) (hsp : s.InAddressSpace) :
    s.GetAvailableSize = s.m_size - (s.m_current - s.m_begin) := by
  unfold SingleEndedMemoryStack.Inv at hinv
  unfold SingleEndedMemoryStack.InAddressSpace at hsp
  unfold SingleEndedMemoryStack.GetAvailableSize
  rw [wsub_of_le hinv.1 (by omega), wsub_of_le (by omega) (by omega)]

/-- `RollBack` as a case distinction on its asserted condition. -/
theorem SingleEndedMemoryStack.RollBack_eq (s : SingleEndedMemoryStack) (ptr : Nat) :
    s.RollBack ptr =
      if s.m_begin ≤ ptr ∧ ptr ≤ s.m_current then some { s with m_current := ptr }
      else none := by
  unfold SingleEndedMemoryStack.RollBack Assert
  by_cases h : s.m_begin ≤ ptr ∧ ptr ≤ s.m_current
  · simp [h]
  · simp [h]

/-- Closed form of `Alloc` on a stack that satisfies the invariant and whose
region lies in the address space: no machine operation wraps. -/
theorem SingleEndedMemoryStack.Alloc_eq (s : SingleEndedMemoryStack) (size : Nat)
    (hinv : s.Inv) (hsp : s.InAddressSpace) :
    s.Alloc size =
      if s.m_size - (s.m_current - s.m_begin) < size then (none, s)
      else (some s.m_current, { s with m_current := s.m_current + size }) := by
  have hav := s.GetAvailableSize_eq hinv hsp
  unfold SingleEndedMemoryStack.Inv at hinv
  unfold SingleEndedMemoryStack.InAddressSpace at hsp
  unfold SingleEndedMemoryStack.Alloc
  rw [hav]
  by_cases h : s.m_size - (s.m_current - s.m_begin) < size
  · simp [h]
  · have hw : wadd s.m_current size = s.m_current + size := wadd_of_lt (by omega)
    simp [h, hw]

/-- `Alloc` keeps the invariant and the region, and never moves the cursor
down. -/
theorem SingleEndedMemoryStack.Alloc_preserves (s : SingleEndedMemoryStack) (size : Nat)
    (hinv : s.Inv) (hsp : s.InAddressSpace) :
    (s.Alloc size).2.Inv ∧ (s.Alloc size).2.InAddressSpace ∧
      (s.Alloc size).2.m_begin = s.m_begin ∧ (s.Alloc size).2.m_size = s.m_size ∧
      (s.Alloc size).2.m_alignment = s.m_alignment ∧
      s.m_current ≤ (s.Alloc size).2.m_current := by
  rw [s.Alloc_eq size hinv hsp]
  unfold SingleEndedMemoryStack.Inv at *
  unfold SingleEndedMemoryStack.InAddressSpace at *
  by_cases h : s.m_size - (s.m_current - s.m_begin) < size
  · simp [h, hinv, hsp]
  · rw [if_neg h]
    refine ⟨⟨?_, ?_⟩, hsp, rfl, rfl, rfl, ?_⟩ <;> dsimp only <;> omega

/-- A successful `Alloc` returns the cursor and advances it by the size. -/
theorem SingleEndedMemoryStack.Alloc_some (s : SingleEndedMemoryStack) (size p : Nat)
    (hinv : s.Inv) (hsp : s.InAddressSpace) (h : (s.Alloc size).1 = some p) :
    p = s.m_current ∧ (s.Alloc size).2.m_current = p + size ∧
      p + size ≤ s.m_begin + s.m_size := by
  rw [s.Alloc_eq size hinv hsp] at h ⊢
  unfold SingleEndedMemoryStack.Inv at hinv
  by_cases hlt : s.m_size - (s.m_current - s.m_begin) < size
  · simp [hlt] at h
  · rw [if_neg hlt] at h ⊢
    have hp : s.m_current = p := by simpa using h
    subst hp
    refine ⟨rfl, rfl, ?_⟩
    omega

/-- A sequence of `Alloc` calls keeps the invariant and the region, and never
moves the cursor down. -/
theorem SingleEndedMemoryStack.AllocSeq_preserves (sizes : List Nat) :
    ∀ s : SingleEndedMemoryStack, s.Inv → s.InAddressSpace →
      (s.AllocSeq sizes).2.Inv ∧ (s.AllocSeq sizes).2.InAddressSpace ∧
      (s.AllocSeq sizes).2.m_begin = s.m_begin ∧ (s.AllocSeq sizes).2.m_size = s.m_size ∧
      (s.AllocSeq sizes).2.m_alignment = s.m_alignment ∧
      s.m_current ≤ (s.AllocSeq sizes).2.m_current := by
  induction sizes with
  | nil => intro s hinv hsp; simp [SingleEndedMemoryStack.AllocSeq, hinv, hsp]
  | cons size rest ih =>
    intro s hinv hsp
    obtain ⟨h1, h2, h3, h4, h5, h6⟩ := s.Alloc_preserves size hinv hsp
    obtain ⟨k1, k2, k3, k4, k5, k6⟩ := ih (s.Alloc size).2 h1 h2
    simp only [SingleEndedMemoryStack.AllocSeq]
    refine ⟨k1, k2, ?_, ?_, ?_, ?_⟩ <;> omega

/-- The number of results of a sequence of `Alloc` calls is the number of
calls. -/
theorem SingleEndedMemoryStack.AllocSeq_length (sizes : List Nat) :
    ∀ s : SingleEndedMemoryStack, (s.AllocSeq sizes).1.length = sizes.length := by
  induction sizes with
  | nil => intro s; rfl
  | cons size rest ih => intro s; simp [SingleEndedMemoryStack.AllocSeq, ih]

/-- Every pointer returned in a sequence of `Alloc` calls is at or above the
cursor the sequence started from. -/
theorem SingleEndedMemoryStack.AllocSeq_ge (sizes : List Nat) :
    ∀ (s : SingleEndedMemoryStack) (j q : Nat), s.Inv → s.InAddressSpace →
      (s.AllocSeq sizes).1[j]? = some (some q) → s.m_current ≤ q := by
  induction sizes with
  | nil => intro s j q _ _ h; simp [SingleEndedMemoryStack.AllocSeq] at h
  | cons size rest ih =>
    intro s j q hinv hsp h
    obtain ⟨h1, h2, _, _, _, h6⟩ := s.Alloc_preserves size hinv hsp
    cases j with
    | zero =>
      simp only [SingleEndedMemoryStack.AllocSeq, List.getElem?_cons_zero,
        Option.some.injEq] at h
      exact (s.Alloc_some size q hinv hsp h).1 ▸ le_refl _
    | succ j =>
      simp only [SingleEndedMemoryStack.AllocSeq, List.getElem?_cons_succ] at h
      exact le_trans h6 (ih _ j q h1 h2 h)

/-- When the remaining sizes fit in the available space, every call of a
sequence of `Alloc` calls succeeds, with a block that ends inside the region. -/
theorem SingleEndedMemoryStack.AllocSeq_fits (sizes : List Nat) :
    ∀ (s : SingleEndedMemoryStack) (i n : Nat), s.Inv → s.InAddressSpace →
      (s.m_current - s.m_begin) + sizes.sum ≤ s.m_size → sizes[i]? = some n →
      ∃ p, (s.AllocSeq sizes).1[i]? = some (some p) ∧ s.m_current ≤ p ∧
        p + n ≤ s.m_begin + s.m_size := by
  induction sizes with
  | nil => intro s i n _ _ _ h; simp at h
  | cons size rest ih =>
    intro s i n hinv hsp hsum h
    have hinv' := hinv
    unfold SingleEndedMemoryStack.Inv at hinv'
    simp only [List.sum_cons] at hsum
    have hfit : ¬ s.m_size - (s.m_current - s.m_begin) < size := by omega
    have heq := s.Alloc_eq size hinv hsp
    rw [if_neg hfit] at heq
    obtain ⟨h1, h2, h3, h4, _, _⟩ := s.Alloc_preserves size hinv hsp
    cases i with
    | zero =>
      simp only [List.getElem?_cons_zero, Option.some.injEq] at h
      subst h
      refine ⟨s.m_current, ?_, le_refl _, by omega⟩
      simp [SingleEndedMemoryStack.AllocSeq, heq]
    | succ i =>
      simp only [List.getElem?_cons_succ] at h
      have hcur : (s.Alloc size).2.m_current = s.m_current + size := by rw [heq]
      obtain ⟨p, hp1, hp2, hp3⟩ := ih (s.Alloc size).2 i n h1 h2 (by omega) h
      refine ⟨p, ?_, by omega, by omega⟩
      simpa [SingleEndedMemoryStack.AllocSeq] using hp1

/-- In a sequence of `Alloc` calls, the block of a successful call ends at or
below the start of the block of every later successful call, and exactly at
the start of the block of the next call when that one succeeds. -/
theorem SingleEndedMemoryStack.AllocSeq_order (sizes : List Nat) :
    ∀ (s : SingleEndedMemoryStack) (i j n p q : Nat), s.Inv → s.InAddressSpace →
      i < j → sizes[i]? = some n →
      (s.AllocSeq sizes).1[i]? = some (some p) →
      (s.AllocSeq sizes).1[j]? = some (some q) →
      p + n ≤ q ∧ (j = i + 1 → q = p + n) := by
  induction sizes with
  | nil => intro s i j n p q _ _ _ h; simp at h
  | cons size rest ih =>
    intro s i j n p q hinv hsp hij hn hp hq
    obtain ⟨h1, h2, _, _, _, _⟩ := s.Alloc_preserves size hinv hsp
    obtain ⟨j, rfl⟩ : ∃ k, j = k + 1 := ⟨j - 1, by omega⟩
    simp only [SingleEndedMemoryStack.AllocSeq, List.getElem?_cons_succ] at hq
    cases i with
    | zero =>
      simp only [List.getElem?_cons_zero, Option.some.injEq] at hn
      subst hn
      simp only [SingleEndedMemoryStack.AllocSeq, List.getElem?_cons_zero,
        Option.some.injEq] at hp
      obtain ⟨_, hcur, _⟩ := s.Alloc_some size p hinv hsp hp
      have hge := SingleEndedMemoryStack.AllocSeq_ge rest _ j q h1 h2 hq
      refine ⟨by omega, ?_⟩
      intro hj
      have hj0 : j = 0 := by omega
      subst hj0
      cases rest with
      | nil => simp [SingleEndedMemoryStack.AllocSeq] at hq
      | cons size2 rest2 =>
        simp only [SingleEndedMemoryStack.AllocSeq, List.getElem?_cons_zero,
          Option.some.injEq] at hq
        have := ((s.Alloc size).2.Alloc_some size2 q h1 h2 hq).1
        omega
    | succ i =>
      simp only [List.getElem?_cons_succ] at hn
      simp only [SingleEndedMemoryStack.AllocSeq, List.getElem?_cons_succ] at hp
      obtain ⟨k1, k2⟩ := ih (s.Alloc size).2 i j n p q h1 h2 (by omega) hn hp hq
      exact ⟨k1, fun hj => k2 (by omega)⟩

/-- Every call keeps the invariant and the region. -/
theorem SingleEndedMemoryStack.call_preserves (s s' : SingleEndedMemoryStack)
    (c : SingleEndedMemoryStack.Call) (hinv : s.Inv) (hsp : s.InAddressSpace)
    (h : s.call c = some s') : s'.Inv ∧ s'.InAddressSpace := by
  cases c with
  | Alloc size =>
    simp only [SingleEndedMemoryStack.call, Option.some.injEq] at h
    subst h
    exact ⟨(s.Alloc_preserves size hinv hsp).1, (s.Alloc_preserves size hinv hsp).2.1⟩
  | Reset =>
    simp only [SingleEndedMemoryStack.call, Option.some.injEq] at h
    subst h
    unfold SingleEndedMemoryStack.Inv SingleEndedMemoryStack.InAddressSpace
      SingleEndedMemoryStack.Reset at *
    dsimp only
    omega
  | RollBack ptr =>
    simp only [SingleEndedMemoryStack.call, SingleEndedMemoryStack.RollBack_eq] at h
    by_cases hp : s.m_begin ≤ ptr ∧ ptr ≤ s.m_current
    · rw [if_pos hp] at h
      simp only [Option.some.injEq] at h
      subst h
      unfold SingleEndedMemoryStack.Inv SingleEndedMemoryStack.InAddressSpace at *
      dsimp only
      omega
    · rw [if_neg hp] at h
      cases h

/-- Every sequence of calls keeps the invariant and the region. -/
theorem SingleEndedMemoryStack.callSeq_preserves (calls : List SingleEndedMemoryStack.Call) :
    ∀ s s' : SingleEndedMemoryStack, s.Inv → s.InAddressSpace →
      s.callSeq calls = some s' → s'.Inv ∧ s'.InAddressSpace := by
  induction calls with
  | nil =>
    intro s s' hinv hsp h
    simp only [SingleEndedMemoryStack.callSeq, Option.some.injEq] at h
    subst h
    exact ⟨hinv, hsp⟩
  | cons c rest ih =>
    intro s s' hinv hsp h
    simp only [SingleEndedMemoryStack.callSeq] at h
    cases hc : s.call c with
    | none => rw [hc] at h; cases h
    | some s1 =>
      rw [hc] at h
      obtain ⟨h1, h2⟩ := s.call_preserves s1 c hinv hsp hc
      exact ih s1 s' h1 h2 h

/-- One `AllocLow`/`AllocHigh` call on a stack whose cursors are ordered
inside the region: it fails exactly when the gap between the cursors is
smaller than the size, it keeps the cursors ordered inside the region, and a
successful call shrinks the gap by the size. -/
theorem DoubleEndedMemoryStack.AllocSide_gap (s : DoubleEndedMemoryStack)
    (c : Side × Nat) (hinv : s.Inv) (hsp : s.InAddressSpace) :
    ((s.AllocSide c).1 = none ↔ s.m_current_high - s.m_current_low < c.2) ∧
      (s.AllocSide c).2.Inv ∧ (s.AllocSide c).2.InAddressSpace ∧
      (s.AllocSide c).2.m_size = s.m_size ∧
      ((s.AllocSide c).2.m_current_high - (s.AllocSide c).2.m_current_low) +
          (if (s.AllocSide c).1 = none then 0 else c.2) =
        s.m_current_high - s.m_current_low := by
  unfold DoubleEndedMemoryStack.Inv at hinv
  unfold DoubleEndedMemoryStack.InAddressSpace at hsp
  have hav : s.GetAvailableSize = s.m_current_high - s.m_current_low := by
    unfold DoubleEndedMemoryStack.GetAvailableSize
    exact wsub_of_le hinv.2.1 (by omega)
  obtain ⟨side, size⟩ := c
  by_cases h : s.m_current_high - s.m_current_low < size
  · cases side <;>
      simp [DoubleEndedMemoryStack.AllocSide, DoubleEndedMemoryStack.AllocLow,
        DoubleEndedMemoryStack.AllocHigh, DoubleEndedMemoryStack.Inv,
        DoubleEndedMemoryStack.InAddressSpace, hav, h, hinv, hsp]
  · cases side
    · have hw : wadd s.m_current_low size = s.m_current_low + size :=
        wadd_of_lt (by omega)
      simp only [DoubleEndedMemoryStack.AllocSide, DoubleEndedMemoryStack.AllocLow,
        DoubleEndedMemoryStack.Inv, DoubleEndedMemoryStack.InAddressSpace, hav, h, hw,
        if_false]
      refine ⟨by simp, ⟨?_, ?_, ?_⟩, ?_, trivial, ?_⟩ <;> first | omega | (simp; omega)
    · have hw : wsub s.m_current_high size = s.m_current_high - size :=
        wsub_of_le (by omega) (by omega)
      simp only [DoubleEndedMemoryStack.AllocSide, DoubleEndedMemoryStack.AllocHigh,
        DoubleEndedMemoryStack.Inv, DoubleEndedMemoryStack.InAddressSpace, hav, h, hw,
        if_false]
      refine ⟨by simp, ⟨?_, ?_, ?_⟩, ?_, trivial, ?_⟩ <;> first | omega | (simp; omega)

/-- After an interleaved sequence of `AllocLow`/`AllocHigh` calls the gap
between the cursors has shrunk by the sum of the sizes of the successful
calls. -/
theorem DoubleEndedMemoryStack.AllocSeq_gap (calls : List (Side × Nat)) :
    ∀ s : DoubleEndedMemoryStack, s.Inv → s.InAddressSpace →
      (s.AllocSeq calls).Inv ∧ (s.AllocSeq calls).InAddressSpace ∧
      (s.AllocSeq calls).m_size = s.m_size ∧
      ((s.AllocSeq calls).m_current_high - (s.AllocSeq calls).m_current_low) +
          s.SuccessfulSize calls = s.m_current_high - s.m_current_low := by
  induction calls with
  | nil =>
    intro s hinv hsp
    simp [DoubleEndedMemoryStack.AllocSeq, DoubleEndedMemoryStack.SuccessfulSize, hinv, hsp]
  | cons c rest ih =>
    intro s hinv hsp
    obtain ⟨_, h2, h3, h4, h5⟩ := s.AllocSide_gap c hinv hsp
    obtain ⟨k1, k2, k3, k4⟩ := ih (s.AllocSide c).2 h2 h3
    simp only [DoubleEndedMemoryStack.AllocSeq, DoubleEndedMemoryStack.SuccessfulSize]
    refine ⟨k1, k2, by omega, by omega⟩

/-- `Reset` on a stack of non-zero capacity whose region lies in the address
space: the cursors are `begin` and `begin + capacity − 1`. -/
theorem DoubleEndedMemoryStack.Reset_eq (s : DoubleEndedMemoryStack)
    (hsp : s.InAddressSpace) (hpos : 0 < s.m_size) :
    s.Reset = { s with
      m_current_low := s.m_begin
      m_current_high := s.m_begin + s.m_size - 1 } := by
  unfold DoubleEndedMemoryStack.InAddressSpace at hsp
  have h : wsub (wadd s.m_begin s.m_size) 1 = s.m_begin + s.m_size - 1 := by
    rw [wadd_of_lt hsp, wsub_of_le (by omega) hsp]
  simp [DoubleEndedMemoryStack.Reset, h]

/-- `RollBackLow` as a case distinction on its asserted condition. -/
theorem DoubleEndedMemoryStack.RollBackLow_eq (s : DoubleEndedMemoryStack) (ptr : Nat) :
    s.RollBackLow ptr =
      if s.m_begin ≤ ptr ∧ ptr ≤ s.m_current_low then some { s with m_current_low := ptr }
      else none := by
  unfold DoubleEndedMemoryStack.RollBackLow Assert
  by_cases h : s.m_begin ≤ ptr ∧ ptr ≤ s.m_current_low
  · simp [h]
  · simp [h]

/-- `RollBackHigh` as a case distinction on its asserted condition, for a
region in the address space. -/
theorem DoubleEndedMemoryStack.RollBackHigh_eq (s : DoubleEndedMemoryStack) (ptr : Nat)
    (hsp : s.InAddressSpace) :
    s.RollBackHigh ptr =
      if s.m_current_high ≤ ptr ∧ ptr < s.m_begin + s.m_size then
        some { s with m_current_high := ptr }
      else none := by
  unfold DoubleEndedMemoryStack.InAddressSpace at hsp
  unfold DoubleEndedMemoryStack.RollBackHigh Assert
  rw [wadd_of_lt hsp]
  by_cases h : s.m_current_high ≤ ptr ∧ ptr < s.m_begin + s.m_size
  · simp [h]
  · simp [h]

/-- Closed form of `AllocLow` when the cursors are ordered. -/
theorem DoubleEndedMemoryStack.AllocLow_eq (s : DoubleEndedMemoryStack) (size : Nat)
    (hle : s.m_current_low ≤ s.m_current_high) (hw : s.m_current_high < WORD) :
    s.AllocLow size =
      if s.m_current_high - s.m_current_low < size then (none, s)
      else (some s.m_current_low, { s with m_current_low := s.m_current_low + size }) := by
  have hav : s.GetAvailableSize = s.m_current_high - s.m_current_low := by
    unfold DoubleEndedMemoryStack.GetAvailableSize
    exact wsub_of_le hle hw
  unfold DoubleEndedMemoryStack.AllocLow
  rw [hav]
  by_cases h : s.m_current_high - s.m_current_low < size
  · simp [h]
  · have hadd : wadd s.m_current_low size = s.m_current_low + size :=
      wadd_of_lt (by omega)
    simp [h, hadd]

/-- Closed form of `AllocHigh` when the cursors are ordered. -/
theorem DoubleEndedMemoryStack.AllocHigh_eq (s : DoubleEndedMemoryStack) (size : Nat)
    (hle : s.m_current_low ≤ s.m_current_high) (hw : s.m_current_high < WORD) :
    s.AllocHigh size =
      if s.m_current_high - s.m_current_low < size then (none, s)
      else (some s.m_current_high, { s with m_current_high := s.m_current_high - size }) := by
  have hav : s.GetAvailableSize = s.m_current_high - s.m_current_low := by
    unfold DoubleEndedMemoryStack.GetAvailableSize
    exact wsub_of_le hle hw
  unfold DoubleEndedMemoryStack.AllocHigh
  rw [hav]
  by_cases h : s.m_current_high - s.m_current_low < size
  · simp [h]
  · have hsub : wsub s.m_current_high size = s.m_current_high - size :=
      wsub_of_le (by omega) hw
    simp [h, hsub]

/-- Every call on a `DoubleEndedMemoryStack` keeps the cursors ordered inside
the region, and keeps the region. -/
theorem DoubleEndedMemoryStack.call_keeps_order (s s' : DoubleEndedMemoryStack)
    (c : DoubleEndedMemoryStack.Call) (hinv : s.Inv) (hsp : s.InAddressSpace)
    (h : s.call c = some s') : s'.Inv ∧ s'.InAddressSpace := by
  have hinv0 := hinv
  have hsp0 := hsp
  unfold DoubleEndedMemoryStack.Inv at hinv0
  unfold DoubleEndedMemoryStack.InAddressSpace at hsp0
  cases c with
  | AllocLow size =>
    simp only [DoubleEndedMemoryStack.call, Option.some.injEq] at h
    subst h
    obtain ⟨_, h2, h3, _⟩ := s.AllocSide_gap (Side.low, size) hinv hsp
    exact ⟨h2, h3⟩
  | AllocHigh size =>
    simp only [DoubleEndedMemoryStack.call, Option.some.injEq] at h
    subst h
    obtain ⟨_, h2, h3, _⟩ := s.AllocSide_gap (Side.high, size) hinv hsp
    exact ⟨h2, h3⟩
  | Reset =>
    simp only [DoubleEndedMemoryStack.call, Option.some.injEq] at h
    subst h
    have hpos : 0 < s.m_size := by omega
    rw [s.Reset_eq hsp hpos]
    unfold DoubleEndedMemoryStack.Inv DoubleEndedMemoryStack.InAddressSpace
    dsimp only
    omega
  | RollBackLow ptr =>
    simp only [DoubleEndedMemoryStack.call, DoubleEndedMemoryStack.RollBackLow_eq] at h
    by_cases hp : s.m_begin ≤ ptr ∧ ptr ≤ s.m_current_low
    · rw [if_pos hp] at h
      simp only [Option.some.injEq] at h
      subst h
      unfold DoubleEndedMemoryStack.Inv DoubleEndedMemoryStack.InAddressSpace
      dsimp only
      omega
    · rw [if_neg hp] at h
      cases h
  | RollBackHigh ptr =>
    simp only [DoubleEndedMemoryStack.call, s.RollBackHigh_eq ptr hsp] at h
    by_cases hp : s.m_current_high ≤ ptr ∧ ptr < s.m_begin + s.m_size
    · rw [if_pos hp] at h
      simp only [Option.some.injEq] at h
      subst h
      unfold DoubleEndedMemoryStack.Inv DoubleEndedMemoryStack.InAddressSpace
      dsimp only
      omega
    · rw [if_neg hp] at h
      cases h

/-- Every sequence of calls on a `DoubleEndedMemoryStack` keeps the cursors
ordered inside the region. -/
theorem DoubleEndedMemoryStack.callSeq_keeps_order (calls : List DoubleEndedMemoryStack.Call) :
    ∀ s s' : DoubleEndedMemoryStack, s.Inv → s.InAddressSpace →
      s.callSeq calls = some s' → s'.Inv ∧ s'.InAddressSpace := by
  induction calls with
  | nil =>
    intro s s' hinv hsp h
    simp only [DoubleEndedMemoryStack.callSeq, Option.some.injEq] at h
    subst h
    exact ⟨hinv, hsp⟩
  | cons c rest ih =>
    intro s s' hinv hsp h
    simp only [DoubleEndedMemoryStack.callSeq] at h
    cases hc : s.call c with
    | none => rw [hc] at h; cases h
    | some s1 =>
      rw [hc] at h
      obtain ⟨h1, h2⟩ := s.call_keeps_order s1 c hinv hsp hc
      exact ih s1 s' h1 h2 h

/-- The first-fit search succeeds at the head when the head qualifies. -/
theorem MemoryArena.takeFirstFit_head (need : Nat) (b : MemoryArena.MemoryBlock)
    (rest : List MemoryArena.MemoryBlock) (h : need ≤ b.first) :
    MemoryArena.takeFirstFit need (b :: rest) = some (b, rest) := by
  simp [MemoryArena.takeFirstFit, h]

/-- The block found by the first-fit search qualifies, and together with the
remaining blocks it makes up the searched list. -/
theorem MemoryArena.takeFirstFit_some (need : Nat) (l : List MemoryArena.MemoryBlock) :
    ∀ (b : MemoryArena.MemoryBlock) (rest : List MemoryArena.MemoryBlock),
      MemoryArena.takeFirstFit need l = some (b, rest) →
      need ≤ b.first ∧ (b :: rest).Perm l := by
  induction l with
  | nil => intro b rest h; simp [MemoryArena.takeFirstFit] at h
  | cons c l ih =>
    intro b rest h
    by_cases hc : need ≤ c.first
    · rw [MemoryArena.takeFirstFit_head need c l hc] at h
      simp only [Option.some.injEq, Prod.mk.injEq] at h
      obtain ⟨h1, h2⟩ := h
      subst h1
      subst h2
      exact ⟨hc, List.Perm.refl _⟩
    · simp only [MemoryArena.takeFirstFit, if_neg hc] at h
      cases hr : MemoryArena.takeFirstFit need l with
      | none => rw [hr] at h; cases h
      | some pr =>
        obtain ⟨d, rest'⟩ := pr
        rw [hr] at h
        simp only [Option.some.injEq, Prod.mk.injEq] at h
        obtain ⟨h1, h2⟩ := h
        subst h1
        subst h2
        obtain ⟨k1, k2⟩ := ih d rest' hr
        exact ⟨k1, (List.Perm.swap c d rest').trans (List.Perm.cons c k2)⟩

/-- The first-fit search fails exactly when no block qualifies. -/
theorem MemoryArena.takeFirstFit_none (need : Nat) (l : List MemoryArena.MemoryBlock) :
    MemoryArena.takeFirstFit need l = none ↔ ∀ b ∈ l, b.first < need := by
  induction l with
  | nil => simp [MemoryArena.takeFirstFit]
  | cons c l ih =>
    by_cases hc : need ≤ c.first
    · rw [MemoryArena.takeFirstFit_head need c l hc]
      constructor
      · intro h; cases h
      · intro h
        have := h c (List.mem_cons_self c l)
        omega
    · simp only [MemoryArena.takeFirstFit, if_neg hc]
      cases hr : MemoryArena.takeFirstFit need l with
      | none =>
        simp only [true_iff]
        intro b hb
        rcases List.mem_cons.1 hb with hb | hb
        · subst hb; omega
        · exact (ih.1 hr) b hb
      | some pr =>
        constructor
        · intro h; cases h
        · intro h
          have hnone : MemoryArena.takeFirstFit need l = none :=
            ih.2 (fun b hb => h b (List.mem_cons_of_mem c hb))
          rw [hr] at hnone
          cases hnone

/-- The fast path of `MemoryArena.Alloc`. -/
theorem MemoryArena.Alloc_fast (a : MemoryArena) (size raw : Nat)
    (h : a.m_current_block_pos + size ≤ a.m_current_block.first) :
    a.Alloc size raw =
      (a.m_current_block.second + a.m_current_block_pos,
        { a with m_current_block_pos := a.m_current_block_pos + size }) := by
  unfold MemoryArena.Alloc
  rw [if_pos h]

/-- After every `MemoryArena.Alloc`, whatever the arena before it, the position
is inside the current block, and a non-null returned pointer addresses `size`
bytes inside the block that is current after the call. -/
theorem MemoryArena.Alloc_inside (a : MemoryArena) (size raw : Nat) :
    (a.Alloc size raw).2.m_current_block_pos ≤ (a.Alloc size raw).2.m_current_block.first ∧
    ((a.Alloc size raw).1 ≠ 0 →
      (a.Alloc size raw).2.m_current_block.second ≤ (a.Alloc size raw).1 ∧
      (a.Alloc size raw).1 + size ≤
        (a.Alloc size raw).2.m_current_block.second +
          (a.Alloc size raw).2.m_current_block.first) := by
  by_cases hfit : a.m_current_block_pos + size ≤ a.m_current_block.first
  · rw [a.Alloc_fast size raw hfit]
    dsimp only
    refine ⟨hfit, fun _ => ⟨by omega, by omega⟩⟩
  · unfold MemoryArena.Alloc
    rw [if_neg hfit]
    cases hr : MemoryArena.takeFirstFit (max size a.m_maximum_block_size)
        a.m_available_blocks with
    | some pr =>
      obtain ⟨b, rest⟩ := pr
      obtain ⟨hb, _⟩ := MemoryArena.takeFirstFit_some _ _ b rest hr
      have hsz : size ≤ b.first := le_trans (le_max_left _ _) hb
      dsimp only
      refine ⟨hsz, fun _ => ⟨le_refl _, by omega⟩⟩
    | none =>
      dsimp only
      by_cases hraw : raw = 0
      · rw [if_pos hraw]
        dsimp only
        refine ⟨le_refl _, fun h => absurd rfl h⟩
      · rw [if_neg hraw]
        dsimp only
        have hsz : size ≤ max size a.m_maximum_block_size := le_max_left _ _
        refine ⟨hsz, fun _ => ⟨le_refl _, by omega⟩⟩

/-- In every arena reached from an arena whose position is inside its current
block, the position is inside the current block. -/
theorem MemoryArena.callSeq_pos_le (calls : List MemoryArena.Call) :
    ∀ a : MemoryArena, a.m_current_block_pos ≤ a.m_current_block.first →
      (a.callSeq calls).m_current_block_pos ≤ (a.callSeq calls).m_current_block.first := by
  induction calls with
  | nil => intro a h; exact h
  | cons c rest ih =>
    intro a _
    simp only [MemoryArena.callSeq]
    apply ih
    cases c with
    | Alloc size raw => exact (a.Alloc_inside size raw).1
    | AllocData sizeofDataT count initialization raw =>
      cases initialization
      · exact (a.Alloc_inside (count * sizeofDataT) raw).1
      · exact (a.Alloc_inside (count * sizeofDataT) raw).1
    | Reset => exact le_refl _

/-- A sequence of `MemoryArena.Alloc` calls whose sizes fit in what is left of
the current block only advances the position. -/
theorem MemoryArena.AllocSeq_advances (calls : List (Nat × Nat)) :
    ∀ a : MemoryArena,
      a.m_current_block_pos + (calls.map Prod.fst).sum ≤ a.m_current_block.first →
      (a.AllocSeq calls).2 =
        { a with m_current_block_pos := a.m_current_block_pos + (calls.map Prod.fst).sum } := by
  induction calls with
  | nil => intro a _; simp [MemoryArena.AllocSeq]
  | cons c rest ih =>
    intro a h
    simp only [List.map_cons, List.sum_cons] at h
    have hc : a.m_current_block_pos + c.1 ≤ a.m_current_block.first := by omega
    have hrest : (a.Alloc c.1 c.2).2.m_current_block_pos + (rest.map Prod.fst).sum ≤
        (a.Alloc c.1 c.2).2.m_current_block.first := by
      rw [a.Alloc_fast c.1 c.2 hc]
      show a.m_current_block_pos + c.1 + (rest.map Prod.fst).sum ≤ a.m_current_block.first
      omega
    simp only [MemoryArena.AllocSeq, List.map_cons, List.sum_cons]
    rw [ih _ hrest, a.Alloc_fast c.1 c.2 hc]
    simp only [Nat.add_assoc]

/-- A sequence of `MemoryArena.Alloc` calls whose sizes fit in what is left of
the current block does not depend on what the raw allocator would return. -/
theorem MemoryArena.AllocSeq_raw_irrelevant (calls : List (Nat × Nat)) :
    ∀ (a : MemoryArena) (calls' : List (Nat × Nat)),
      a.m_current_block_pos + (calls.map Prod.fst).sum ≤ a.m_current_block.first →
      calls'.map Prod.fst = calls.map Prod.fst →
      a.AllocSeq calls' = a.AllocSeq calls := by
  induction calls with
  | nil =>
    intro a calls' _ hs
    have : calls' = [] := by simpa using hs
    rw [this]
  | cons c rest ih =>
    intro a calls' h hs
    cases calls' with
    | nil => simp at hs
    | cons c' rest' =>
      obtain ⟨size, raw⟩ := c
      obtain ⟨size', raw'⟩ := c'
      simp only [List.map_cons, List.cons.injEq] at hs
      simp only [List.map_cons, List.sum_cons] at h
      obtain ⟨hs1, hs2⟩ := hs
      subst hs1
      have hc : a.m_current_block_pos + size' ≤ a.m_current_block.first := by omega
      have hrest : (a.Alloc size' raw).2.m_current_block_pos + (rest.map Prod.fst).sum ≤
          (a.Alloc size' raw).2.m_current_block.first := by
        rw [a.Alloc_fast size' raw hc]
        show a.m_current_block_pos + size' + (rest.map Prod.fst).sum ≤ a.m_current_block.first
        omega
      have hraw : a.Alloc size' raw' = a.Alloc size' raw := by
        rw [a.Alloc_fast size' raw' hc, a.Alloc_fast size' raw hc]
      simp only [MemoryArena.AllocSeq, hraw]
      rw [ih _ rest' hrest hs2]

/-- The first allocation after a `Reset` that returns a non-null pointer is
served at position 0 of a block, taken from the available blocks or new,
whose capacity is at least `max(size, maximum_block_size)`. -/
theorem MemoryArena.Alloc_first (alignment maximum_block_size size raw : Nat)
    (available : List MemoryArena.MemoryBlock)
    (hp : ((⟨alignment, maximum_block_size, ⟨0, 0⟩, 0, [], available⟩ : MemoryArena).Alloc
      size raw).1 ≠ 0) :
    0 < size ∧ ∃ (b : MemoryArena.MemoryBlock) (rest : List MemoryArena.MemoryBlock),
      b.second ≠ 0 ∧ max size maximum_block_size ≤ b.first ∧
      (⟨alignment, maximum_block_size, ⟨0, 0⟩, 0, [], available⟩ : MemoryArena).Alloc size raw =
        (b.second, ⟨alignment, maximum_block_size, b, size, [], rest⟩) := by
  have hsize : 0 < size := by
    by_contra h0
    have hz : size = 0 := by omega
    subst hz
    simp [MemoryArena.Alloc] at hp
  refine ⟨hsize, ?_⟩
  have hnofit : ¬ (0 + size ≤ 0) := by omega
  unfold MemoryArena.Alloc at hp ⊢
  simp only [hnofit, if_false, lt_irrefl] at hp ⊢
  cases hr : MemoryArena.takeFirstFit (max size maximum_block_size) available with
  | some pr =>
    obtain ⟨b, rest⟩ := pr
    rw [hr] at hp
    obtain ⟨hb, _⟩ := MemoryArena.takeFirstFit_some _ _ b rest hr
    exact ⟨b, rest, hp, hb, rfl⟩
  | none =>
    rw [hr] at hp
    by_cases hraw : raw = 0
    · simp [hraw] at hp
    · refine ⟨⟨max size maximum_block_size, raw⟩, available, hraw, le_refl _, ?_⟩
      simp [hraw]

/-- `MemoryArena.Alloc` keeps null blocks empty. -/
theorem MemoryArena.Alloc_nullBlocksEmpty (a : MemoryArena) (size raw : Nat)
    (h : a.NullBlocksEmpty) : (a.Alloc size raw).2.NullBlocksEmpty := by
  obtain ⟨hc, hu, hv⟩ := h
  have hused : ∀ b ∈ (if 0 < a.m_current_block_pos then a.m_used_blocks ++ [a.m_current_block]
      else a.m_used_blocks), b.second = 0 → b.first = 0 := by
    intro b hb
    split at hb
    · rcases List.mem_append.1 hb with hb | hb
      · exact hu b hb
      · rw [List.mem_singleton.1 hb]; exact hc
    · exact hu b hb
  by_cases hfit : a.m_current_block_pos + size ≤ a.m_current_block.first
  · rw [a.Alloc_fast size raw hfit]
    exact ⟨hc, hu, hv⟩
  · unfold MemoryArena.Alloc
    rw [if_neg hfit]
    cases hr : MemoryArena.takeFirstFit (max size a.m_maximum_block_size)
        a.m_available_blocks with
    | some pr =>
      obtain ⟨b, rest⟩ := pr
      obtain ⟨_, hperm⟩ := MemoryArena.takeFirstFit_some _ _ b rest hr
      refine ⟨?_, hused, ?_⟩
      · exact hv b (hperm.subset (List.mem_cons_self b rest))
      · intro c hcm
        exact hv c (hperm.subset (List.mem_cons_of_mem b hcm))
    | none =>
      dsimp only
      by_cases hraw : raw = 0
      · rw [if_pos hraw]
        exact ⟨fun _ => rfl, hused, hv⟩
      · rw [if_neg hraw]
        exact ⟨fun h0 => absurd h0 hraw, hused, hv⟩

/-- In every arena reached from construction, null blocks are empty. -/
theorem MemoryArena.callSeq_nullBlocksEmpty (calls : List MemoryArena.Call) :
    ∀ a : MemoryArena, a.NullBlocksEmpty → (a.callSeq calls).NullBlocksEmpty := by
  induction calls with
  | nil => intro a h; exact h
  | cons c rest ih =>
    intro a h
    simp only [MemoryArena.callSeq]
    apply ih
    cases c with
    | Alloc size raw => exact a.Alloc_nullBlocksEmpty size raw h
    | AllocData sizeofDataT count initialization raw =>
      cases initialization
      · exact a.Alloc_nullBlocksEmpty (count * sizeofDataT) raw h
      · exact a.Alloc_nullBlocksEmpty (count * sizeofDataT) raw h
    | Reset =>
      obtain ⟨hc, hu, hv⟩ := h
      refine ⟨fun _ => rfl, fun b hb => (by cases hb), ?_⟩
      intro b hb
      simp only [MemoryArena.call, MemoryArena.Reset] at hb
      rcases List.mem_append.1 hb with hb | hb
      · rcases List.mem_append.1 hb with hb | hb
        · split at hb
          · cases hb
          · rw [List.mem_singleton.1 hb]; exact hc
        · exact hu b (List.mem_reverse.1 hb)
      · exact hv b hb

/-- The current block of an arena reached from construction, when null, has
capacity 0. -/
theorem MemoryArena.reachable_null_current_empty (maximum_block_size alignment : Nat)
    (calls : List MemoryArena.Call) :
    ((MemoryArena.construct maximum_block_size alignment).callSeq calls).m_current_block.second
        = 0 →
      ((MemoryArena.construct maximum_block_size alignment).callSeq calls).m_current_block.first
        = 0 :=
  (MemoryArena.callSeq_nullBlocksEmpty calls _
    ⟨fun _ => rfl, fun _ hb => (by cases hb), fun _ hb => (by cases hb)⟩).1

/-! ## Claims -/

/-- C1: `Alloc` is pure bump allocation.  For every stack with
`begin ≤ current ≤ begin + capacity` (whose region lies in the address space)
and every size: if `capacity − (current − begin) < size` the call returns null,
and otherwise it returns the pre-call `current` and the post-call `current` is
the pre-call `current + size`. -/
theorem SingleEndedMemoryStack.Alloc_bump (s : SingleEndedMemoryStack) (size : Nat)
    (hinv : s.Inv) (hsp : s.InAddressSpace) :
    (s.m_size - (s.m_current - s.m_begin) < size → (s.Alloc size).1 = none) ∧
    (¬ s.m_size - (s.m_current - s.m_begin) < size →
      (s.Alloc size).1 = some s.m_current ∧
      (s.Alloc size).2.m_current = s.m_current + size) := by
  have hav := s.GetAvailableSize_eq hinv hsp
  unfold SingleEndedMemoryStack.Inv at hinv
  unfold SingleEndedMemoryStack.InAddressSpace at hsp
  constructor
  · intro h
    simp [SingleEndedMemoryStack.Alloc, hav, h]
  · intro h
    have hw : wadd s.m_current size = s.m_current + size := wadd_of_lt (by omega)
    simp [SingleEndedMemoryStack.Alloc, hav, h, hw]


/-- Witness of C1 at capacity 256, begin 4096, current 4152, size 100. -/
theorem SingleEndedMemoryStack.Alloc_bump_witness :
    (⟨16, 256, 4096, 4152⟩ : SingleEndedMemoryStack).Inv ∧
    (⟨16, 256, 4096, 4152⟩ : SingleEndedMemoryStack).InAddressSpace ∧
    ((⟨16, 256, 4096, 4152⟩ : SingleEndedMemoryStack).Alloc 100).1 = some 4152 ∧
    ((⟨16, 256, 4096, 4152⟩ : SingleEndedMemoryStack).Alloc 100).2.m_current = 4252 :=
  ⟨by decide, by decide,
    ((SingleEndedMemoryStack.Alloc_bump ⟨16, 256, 4096, 4152⟩ 100
      (by decide) (by decide)).2 (by decide))⟩

/-- C2: a failed `Alloc` leaves the stack unchanged.  For every stack and size
for which `Alloc` returns null, the stack after the call (`current`, `begin`,
capacity and alignment) is the stack before the call. -/
theorem SingleEndedMemoryStack.Alloc_null_unchanged (s : SingleEndedMemoryStack)
    (size : Nat) (h : (s.Alloc size).1 = none) : (s.Alloc size).2 = s := by
  unfold SingleEndedMemoryStack.Alloc at h ⊢
  by_cases hlt : s.GetAvailableSize < size
  · simp [hlt]
  · simp [hlt] at h


/-- Witness of C2, the scenario of the spec: capacity 256, `Alloc(200)`
succeeds, `Alloc(100)` returns null and `current − begin` is still 200. -/
theorem SingleEndedMemoryStack.Alloc_null_unchanged_witness :
    SingleEndedMemoryStack.construct 256 16 4096 = some ⟨16, 256, 4096, 4096⟩ ∧
    ((⟨16, 256, 4096, 4096⟩ : SingleEndedMemoryStack).Alloc 200) =
      (some 4096, ⟨16, 256, 4096, 4296⟩) ∧
    ((⟨16, 256, 4096, 4296⟩ : SingleEndedMemoryStack).Alloc 100).1 = none ∧
    ((⟨16, 256, 4096, 4296⟩ : SingleEndedMemoryStack).Alloc 100).2 =
      ⟨16, 256, 4096, 4296⟩ ∧
    4296 - 4096 = 200 :=
  ⟨by decide, by decide, by decide,
    SingleEndedMemoryStack.Alloc_null_unchanged ⟨16, 256, 4096, 4296⟩ 100 (by decide),
    by decide⟩

/-- C3 as stated fails for a call of size zero made when the stack is full: on
a reset stack of capacity 256 at address 4096 the calls `Alloc(256)`,
`Alloc(0)` have cumulative size 256, both succeed, and the second returns
`begin + capacity`, which is not below `begin + capacity`. -/
theorem SingleEndedMemoryStack.AllocSeq_within_counterexample :
    (⟨16, 256, 4096, 4096⟩ : SingleEndedMemoryStack).InAddressSpace ∧
    (⟨16, 256, 4096, 4096⟩ : SingleEndedMemoryStack).Reset = ⟨16, 256, 4096, 4096⟩ ∧
    [256, 0].sum ≤ (⟨16, 256, 4096, 4096⟩ : SingleEndedMemoryStack).m_size ∧
    ((⟨16, 256, 4096, 4096⟩ : SingleEndedMemoryStack).Reset.AllocSeq [256, 0]).1 =
      [some 4096, some 4352] ∧
    ¬ (4352 < (⟨16, 256, 4096, 4096⟩ : SingleEndedMemoryStack).m_begin +
        (⟨16, 256, 4096, 4096⟩ : SingleEndedMemoryStack).m_size) := by
  refine ⟨by decide, by decide, by decide, by decide, by decide⟩

/-- C3 (amended): for every sequence of `Alloc(size)` calls on a freshly
constructed or reset stack (region in the address space) whose cumulative size
is at most the capacity, every call succeeds, and the pointer `p` returned by
a call of size `n` satisfies `begin ≤ p` and `p + n ≤ begin + capacity`; in
particular `p < begin + capacity` when `n > 0`. -/
theorem SingleEndedMemoryStack.AllocSeq_within (s : SingleEndedMemoryStack)
    (sizes : List Nat) (i n : Nat) (hsp : s.InAddressSpace)
    (hsum : sizes.sum ≤ s.m_size) (hn : sizes[i]? = some n) :
    ∃ p, (s.Reset.AllocSeq sizes).1[i]? = some (some p) ∧
      s.m_begin ≤ p ∧ p + n ≤ s.m_begin + s.m_size ∧
      (0 < n → p < s.m_begin + s.m_size) := by
  have hinv : s.Reset.Inv := by
    unfold SingleEndedMemoryStack.Inv SingleEndedMemoryStack.Reset
    dsimp only
    omega
  have hsp' : s.Reset.InAddressSpace := hsp
  obtain ⟨p, hp1, hp2, hp3⟩ :=
    SingleEndedMemoryStack.AllocSeq_fits sizes s.Reset i n hinv hsp'
      (by unfold SingleEndedMemoryStack.Reset; dsimp only; omega) hn
  have hb : s.Reset.m_begin = s.m_begin := rfl
  have hc : s.Reset.m_current = s.m_begin := rfl
  have hs : s.Reset.m_size = s.m_size := rfl
  rw [hb, hs] at hp3
  rw [hc] at hp2
  exact ⟨p, hp1, hp2, hp3, fun h0 => by omega⟩

/-- Witness of C3 (amended): three calls of sizes 100, 100, 56 on a reset stack
of capacity 256; the third one returns an address inside the region. -/
theorem SingleEndedMemoryStack.AllocSeq_within_witness :
    (⟨16, 256, 4096, 4200⟩ : SingleEndedMemoryStack).InAddressSpace ∧
    [100, 100, 56].sum ≤ (⟨16, 256, 4096, 4200⟩ : SingleEndedMemoryStack).m_size ∧
    ((⟨16, 256, 4096, 4200⟩ : SingleEndedMemoryStack).Reset.AllocSeq [100, 100, 56]).1 =
      [some 4096, some 4196, some 4296] ∧
    ∃ p, ((⟨16, 256, 4096, 4200⟩ : SingleEndedMemoryStack).Reset.AllocSeq
        [100, 100, 56]).1[2]? = some (some p) ∧
      4096 ≤ p ∧ p + 56 ≤ 4096 + 256 ∧ (0 < 56 → p < 4096 + 256) :=
  ⟨by decide, by decide, by decide,
    SingleEndedMemoryStack.AllocSeq_within ⟨16, 256, 4096, 4200⟩ [100, 100, 56] 2 56
      (by decide) (by decide) (by decide)⟩

/-- C4: in a sequence of `Alloc` calls with no `Reset` or `RollBack` in between
(on a stack that satisfies the invariant, region in the address space), the
byte ranges `[p, p + n)` and `[q, q + m)` of two distinct successful calls
share no address, the returned addresses do not decrease in call order, and a
successful call that directly follows a successful call returns the previous
pointer plus the previous size. -/
theorem SingleEndedMemoryStack.AllocSeq_disjoint_monotone (s : SingleEndedMemoryStack)
    (sizes : List Nat) (i j n m p q : Nat) (hinv : s.Inv) (hsp : s.InAddressSpace)
    (hij : i < j) (hn : sizes[i]? = some n) (hm : sizes[j]? = some m)
    (hp : (s.AllocSeq sizes).1[i]? = some (some p))
    (hq : (s.AllocSeq sizes).1[j]? = some (some q)) :
    (∀ x, ¬ ((p ≤ x ∧ x < p + n) ∧ (q ≤ x ∧ x < q + m))) ∧
      p ≤ q ∧ (j = i + 1 → q = p + n) := by
  obtain ⟨h1, h2⟩ :=
    SingleEndedMemoryStack.AllocSeq_order sizes s i j n p q hinv hsp hij hn hp hq
  have _ := hm
  refine ⟨?_, by omega, h2⟩
  intro x hx
  omega

/-- Witness of C4: the calls `Alloc(100)`, `Alloc(50)` on a stack of capacity
256 at address 4096 return 4096 and 4196. -/
theorem SingleEndedMemoryStack.AllocSeq_disjoint_monotone_witness :
    (⟨16, 256, 4096, 4096⟩ : SingleEndedMemoryStack).Inv ∧
    (⟨16, 256, 4096, 4096⟩ : SingleEndedMemoryStack).InAddressSpace ∧
    ((⟨16, 256, 4096, 4096⟩ : SingleEndedMemoryStack).AllocSeq [100, 50]).1 =
      [some 4096, some 4196] ∧
    ((∀ x, ¬ ((4096 ≤ x ∧ x < 4096 + 100) ∧ (4196 ≤ x ∧ x < 4196 + 50))) ∧
      4096 ≤ 4196 ∧ (1 = 0 + 1 → 4196 = 4096 + 100)) :=
  ⟨by decide, by decide, by decide,
    SingleEndedMemoryStack.AllocSeq_disjoint_monotone ⟨16, 256, 4096, 4096⟩ [100, 50]
      0 1 100 50 4096 4196 (by decide) (by decide) (by decide) (by decide) (by decide)
      (by decide) (by decide)⟩

/-- C5: for every checkpoint with `begin ≤ checkpoint ≤ current` and every size
with `size ≤ capacity − (checkpoint − begin)`, `RollBack(checkpoint)` is
accepted and the `Alloc(size)` that follows returns exactly the address
`checkpoint`. -/
theorem SingleEndedMemoryStack.RollBack_Alloc_reuses (s : SingleEndedMemoryStack)
    (checkpoint size : Nat) (hwt : s.WellTyped)
    (hlo : s.m_begin ≤ checkpoint) (hhi : checkpoint ≤ s.m_current)
    (hfit : size ≤ s.m_size - (checkpoint - s.m_begin)) :
    ∃ s', s.RollBack checkpoint = some s' ∧ (s'.Alloc size).1 = some checkpoint := by
  unfold SingleEndedMemoryStack.WellTyped at hwt
  refine ⟨{ s with m_current := checkpoint }, ?_, ?_⟩
  · simp [SingleEndedMemoryStack.RollBack_eq, hlo, hhi]
  · have hav : ¬ wsub s.m_size (wsub checkpoint s.m_begin) < size := by
      unfold wsub WORD at *
      omega
    simp [SingleEndedMemoryStack.Alloc, SingleEndedMemoryStack.GetAvailableSize, hav]

/-- Witness of C5: capacity 256 at 4096 with 200 bytes used; roll back to
4146 and allocate 64 bytes. -/
theorem SingleEndedMemoryStack.RollBack_Alloc_reuses_witness :
    (⟨16, 256, 4096, 4296⟩ : SingleEndedMemoryStack).WellTyped ∧
    (4096 ≤ 4146 ∧ 4146 ≤ 4296 ∧ 64 ≤ 256 - (4146 - 4096)) ∧
    (⟨16, 256, 4096, 4296⟩ : SingleEndedMemoryStack).RollBack 4146 =
      some ⟨16, 256, 4096, 4146⟩ ∧
    ∃ s', (⟨16, 256, 4096, 4296⟩ : SingleEndedMemoryStack).RollBack 4146 = some s' ∧
      (s'.Alloc 64).1 = some 4146 :=
  ⟨by decide, by decide, by decide,
    SingleEndedMemoryStack.RollBack_Alloc_reuses ⟨16, 256, 4096, 4296⟩ 4146 64
      (by decide) (by decide) (by decide) (by decide)⟩

/-- C6: `RollBack(checkpoint)` sets `current = checkpoint` (and nothing else)
when `begin ≤ checkpoint ≤ current`; its assertion fires exactly when
`checkpoint < begin` or `checkpoint > current`; and it never clamps: whenever
it returns, the new `current` is the given checkpoint. -/
theorem SingleEndedMemoryStack.RollBack_spec (s : SingleEndedMemoryStack)
    (checkpoint : Nat) :
    (s.m_begin ≤ checkpoint ∧ checkpoint ≤ s.m_current →
      s.RollBack checkpoint = some { s with m_current := checkpoint }) ∧
    (s.RollBack checkpoint = none ↔
      (checkpoint < s.m_begin ∨ s.m_current < checkpoint)) ∧
    (∀ s', s.RollBack checkpoint = some s' → s'.m_current = checkpoint) := by
  rw [SingleEndedMemoryStack.RollBack_eq]
  by_cases h : s.m_begin ≤ checkpoint ∧ checkpoint ≤ s.m_current
  · rw [if_pos h]
    refine ⟨fun _ => rfl, ⟨fun h' => (by cases h'), fun h' => (by omega)⟩, ?_⟩
    intro s' hs'
    simp only [Option.some.injEq] at hs'
    subst hs'
    rfl
  · rw [if_neg h]
    refine ⟨fun h' => absurd h' h, ⟨fun _ => (by omega), fun _ => rfl⟩, ?_⟩
    intro s' hs'
    cases hs'

/-- Witness of C6: an accepted checkpoint and its effect, and a rejected
one. -/
theorem SingleEndedMemoryStack.RollBack_spec_witness :
    (4096 ≤ 4100 ∧ 4100 ≤ 4296) ∧
    (⟨16, 256, 4096, 4296⟩ : SingleEndedMemoryStack).RollBack 4100 =
      some ⟨16, 256, 4096, 4100⟩ ∧
    (⟨16, 256, 4096, 4296⟩ : SingleEndedMemoryStack).RollBack 4297 = none :=
  ⟨by decide,
    (SingleEndedMemoryStack.RollBack_spec ⟨16, 256, 4096, 4296⟩ 4100).1
      ⟨by decide, by decide⟩,
    by decide⟩

/-- C7: checkpoint discipline.  If `cp` is the value of `current` read on a
stack that satisfies the invariant (region in the address space), then after
any sequence of `Alloc` calls, successful or failing, `cp` satisfies
`begin ≤ cp ≤ current` and `RollBack(cp)` restores exactly the stack `cp` was
read from. -/
theorem SingleEndedMemoryStack.checkpoint_restores (s : SingleEndedMemoryStack)
    (sizes : List Nat) (hinv : s.Inv) (hsp : s.InAddressSpace) :
    (s.AllocSeq sizes).2.m_begin ≤ s.m_current ∧
      s.m_current ≤ (s.AllocSeq sizes).2.m_current ∧
      (s.AllocSeq sizes).2.RollBack s.m_current = some s := by
  obtain ⟨_, _, h3, h4, h5, h6⟩ :=
    SingleEndedMemoryStack.AllocSeq_preserves sizes s hinv hsp
  have hb : (s.AllocSeq sizes).2.m_begin ≤ s.m_current := by
    rw [h3]; exact hinv.1
  refine ⟨hb, h6, ?_⟩
  rw [SingleEndedMemoryStack.RollBack_eq, if_pos ⟨hb, h6⟩, h3, h4, h5]

/-- Witness of C7: a burst of three calls, the last of which fails, then a
roll-back to the checkpoint. -/
theorem SingleEndedMemoryStack.checkpoint_restores_witness :
    (⟨16, 256, 4096, 4106⟩ : SingleEndedMemoryStack).Inv ∧
    (⟨16, 256, 4096, 4106⟩ : SingleEndedMemoryStack).InAddressSpace ∧
    (⟨16, 256, 4096, 4106⟩ : SingleEndedMemoryStack).AllocSeq [100, 100, 100] =
      ([some 4106, some 4206, none], ⟨16, 256, 4096, 4306⟩) ∧
    (((⟨16, 256, 4096, 4106⟩ : SingleEndedMemoryStack).AllocSeq [100, 100, 100]).2.m_begin
        ≤ 4106 ∧
      4106 ≤ ((⟨16, 256, 4096, 4106⟩ : SingleEndedMemoryStack).AllocSeq
        [100, 100, 100]).2.m_current ∧
      ((⟨16, 256, 4096, 4106⟩ : SingleEndedMemoryStack).AllocSeq
        [100, 100, 100]).2.RollBack 4106 = some ⟨16, 256, 4096, 4106⟩) :=
  ⟨by decide, by decide, by decide,
    SingleEndedMemoryStack.checkpoint_restores ⟨16, 256, 4096, 4106⟩ [100, 100, 100]
      (by decide) (by decide)⟩

/-- C8: `Reset` sets `current = begin` from every state and changes nothing
else, so that the whole capacity is available again: after `Reset`,
`Alloc(size)` succeeds if and only if `size ≤ capacity`, and a successful
`Alloc` returns `begin`; `Reset` is idempotent. -/
theorem SingleEndedMemoryStack.Reset_spec (s : SingleEndedMemoryStack) (size : Nat)
    (hwt : s.WellTyped) :
    s.Reset = { s with m_current := s.m_begin } ∧
    s.Reset.GetAvailableSize = s.m_size ∧
    ((s.Reset.Alloc size).1 ≠ none ↔ size ≤ s.m_size) ∧
    (∀ p, (s.Reset.Alloc size).1 = some p → p = s.m_begin) ∧
    s.Reset.Reset = s.Reset := by
  unfold SingleEndedMemoryStack.WellTyped at hwt
  have hav : s.Reset.GetAvailableSize = s.m_size := by
    unfold SingleEndedMemoryStack.GetAvailableSize SingleEndedMemoryStack.Reset wsub WORD at *
    dsimp only
    omega
  refine ⟨rfl, hav, ?_, ?_, rfl⟩
  · unfold SingleEndedMemoryStack.Alloc
    rw [hav]
    by_cases h : s.m_size < size
    · simp only [if_pos h]
      constructor
      · intro h'; exact absurd rfl h'
      · intro h'; omega
    · simp only [if_neg h]
      constructor
      · intro _; omega
      · intro _ h'; cases h'
  · intro p hp
    unfold SingleEndedMemoryStack.Alloc at hp
    rw [hav] at hp
    by_cases h : s.m_size < size
    · rw [if_pos h] at hp; cases hp
    · rw [if_neg h] at hp
      simp only [Option.some.injEq] at hp
      exact hp.symm

/-- Witness of C8: a stack of capacity 256 with 200 bytes used is reset; the
whole capacity is available again. -/
theorem SingleEndedMemoryStack.Reset_spec_witness :
    (⟨16, 256, 4096, 4296⟩ : SingleEndedMemoryStack).WellTyped ∧
    (⟨16, 256, 4096, 4296⟩ : SingleEndedMemoryStack).Reset = ⟨16, 256, 4096, 4096⟩ ∧
    (⟨16, 256, 4096, 4296⟩ : SingleEndedMemoryStack).Reset.GetAvailableSize = 256 ∧
    ((⟨16, 256, 4096, 4296⟩ : SingleEndedMemoryStack).Reset.Alloc 256).1 = some 4096 ∧
    ((⟨16, 256, 4096, 4296⟩ : SingleEndedMemoryStack).Reset.Alloc 257).1 = none :=
  ⟨by decide, by decide,
    (SingleEndedMemoryStack.Reset_spec ⟨16, 256, 4096, 4296⟩ 256 (by decide)).2.1,
    by decide, by decide⟩

/-- C9: the invariant `begin ≤ current ≤ begin + capacity` holds in every state
reachable from construction by a sequence of `Alloc`, `Reset` and `RollBack`
calls none of whose `RollBack` assertions fires, provided `begin + capacity`
does not overflow the address type. -/
theorem SingleEndedMemoryStack.Inv_reachable (size alignment ptr : Nat)
    (calls : List SingleEndedMemoryStack.Call) (s0 s : SingleEndedMemoryStack)
    (hnew : SingleEndedMemoryStack.construct size alignment ptr = some s0)
    (hsp : ptr + size < WORD) (hrun : s0.callSeq calls = some s) :
    s.m_begin ≤ s.m_current ∧ s.m_current ≤ s.m_begin + s.m_size := by
  unfold SingleEndedMemoryStack.construct at hnew
  by_cases hp : ptr = 0
  · rw [if_pos hp] at hnew; cases hnew
  · rw [if_neg hp] at hnew
    simp only [Option.some.injEq] at hnew
    subst hnew
    have hinv0 : (SingleEndedMemoryStack.Reset
        { m_alignment := alignment, m_size := size, m_begin := ptr, m_current := 0 }).Inv := by
      unfold SingleEndedMemoryStack.Inv SingleEndedMemoryStack.Reset
      dsimp only
      omega
    exact (SingleEndedMemoryStack.callSeq_preserves calls _ s hinv0 hsp hrun).1

/-- Witness of C9: construction at address 4096 with capacity 256 followed by
`Alloc(200)`, `Alloc(100)` (fails), `RollBack(4100)`, `Alloc(16)`, `Reset()`,
`Alloc(256)`. -/
theorem SingleEndedMemoryStack.Inv_reachable_witness :
    SingleEndedMemoryStack.construct 256 16 4096 = some ⟨16, 256, 4096, 4096⟩ ∧
    4096 + 256 < WORD ∧
    (⟨16, 256, 4096, 4096⟩ : SingleEndedMemoryStack).callSeq
        [.Alloc 200, .Alloc 100, .RollBack 4100, .Alloc 16, .Reset, .Alloc 256] =
      some ⟨16, 256, 4096, 4352⟩ ∧
    ((⟨16, 256, 4096, 4352⟩ : SingleEndedMemoryStack).m_begin ≤
        (⟨16, 256, 4096, 4352⟩ : SingleEndedMemoryStack).m_current ∧
      (⟨16, 256, 4096, 4352⟩ : SingleEndedMemoryStack).m_current ≤
        (⟨16, 256, 4096, 4352⟩ : SingleEndedMemoryStack).m_begin +
          (⟨16, 256, 4096, 4352⟩ : SingleEndedMemoryStack).m_size) :=
  ⟨by decide, by decide, by decide,
    SingleEndedMemoryStack.Inv_reachable 256 16 4096
      [.Alloc 200, .Alloc 100, .RollBack 4100, .Alloc 16, .Reset, .Alloc 256]
      ⟨16, 256, 4096, 4096⟩ ⟨16, 256, 4096, 4352⟩ (by decide) (by decide) (by decide)⟩

/-- C10 as stated fails at the capacity itself: on a freshly constructed stack
of capacity 256 at address 4096 the first call `AllocLow(256)` returns null
although the running sum including this call is 256 ≤ 256 (`Reset` puts the
high cursor at `begin + capacity − 1`, so only 255 bytes are available). -/
theorem DoubleEndedMemoryStack.Alloc_iff_sum_counterexample :
    DoubleEndedMemoryStack.construct 256 16 4096 = some ⟨16, 256, 4096, 4096, 4351⟩ ∧
    (⟨16, 256, 4096, 4096, 4351⟩ : DoubleEndedMemoryStack).Reset =
      ⟨16, 256, 4096, 4096, 4351⟩ ∧
    (((⟨16, 256, 4096, 4096, 4351⟩ : DoubleEndedMemoryStack).Reset.AllocSeq
      []).AllocSide (Side.low, 256)).1 = none ∧
    (⟨16, 256, 4096, 4096, 4351⟩ : DoubleEndedMemoryStack).Reset.SuccessfulSize [] + 256 ≤
      (⟨16, 256, 4096, 4096, 4351⟩ : DoubleEndedMemoryStack).m_size := by
  refine ⟨by decide, by decide, by decide, by decide⟩

/-- C10 (amended): for a stack of capacity `C ≥ 1` (region in the address
space) starting from the reset state, in every interleaved sequence of
`AllocLow`/`AllocHigh` calls a call succeeds if and only if the running sum of
the sizes of all successful low- and high-side allocations including this one
is at most `C − 1`. -/
theorem DoubleEndedMemoryStack.Alloc_iff_sum (s : DoubleEndedMemoryStack)
    (before : List (Side × Nat)) (c : Side × Nat)
    (hsp : s.InAddressSpace) (hpos : 0 < s.m_size) :
    ((s.Reset.AllocSeq before).AllocSide c).1 ≠ none ↔
      s.Reset.SuccessfulSize before + c.2 ≤ s.m_size - 1 := by
  have hreset := s.Reset_eq hsp hpos
  have hsp0 := hsp
  unfold DoubleEndedMemoryStack.InAddressSpace at hsp0
  have hlow : s.Reset.m_current_low = s.m_begin := by rw [hreset]
  have hhigh : s.Reset.m_current_high = s.m_begin + s.m_size - 1 := by rw [hreset]
  have hinv : s.Reset.Inv := by
    unfold DoubleEndedMemoryStack.Inv
    rw [hlow, hhigh]
    have hb : s.Reset.m_begin = s.m_begin := rfl
    have hs : s.Reset.m_size = s.m_size := rfl
    rw [hb, hs]
    omega
  have hsp' : s.Reset.InAddressSpace := hsp
  obtain ⟨k1, k2, _, k4⟩ := DoubleEndedMemoryStack.AllocSeq_gap before s.Reset hinv hsp'
  obtain ⟨g1, _⟩ := (s.Reset.AllocSeq before).AllocSide_gap c k1 k2
  rw [hlow, hhigh] at k4
  rw [Ne, g1]
  omega

/-- Witness of C10 (amended): capacity 256; after `AllocLow(100)`,
`AllocHigh(100)` and a failing `AllocLow(100)`, the call `AllocHigh(55)`
succeeds (running sum 255) and the call `AllocHigh(56)` fails (running sum
256). -/
theorem DoubleEndedMemoryStack.Alloc_iff_sum_witness :
    (⟨16, 256, 4096, 0, 0⟩ : DoubleEndedMemoryStack).InAddressSpace ∧
    0 < (⟨16, 256, 4096, 0, 0⟩ : DoubleEndedMemoryStack).m_size ∧
    (⟨16, 256, 4096, 0, 0⟩ : DoubleEndedMemoryStack).Reset.SuccessfulSize
      [(Side.low, 100), (Side.high, 100), (Side.low, 100)] = 200 ∧
    (((⟨16, 256, 4096, 0, 0⟩ : DoubleEndedMemoryStack).Reset.AllocSeq
      [(Side.low, 100), (Side.high, 100), (Side.low, 100)]).AllocSide
      (Side.high, 55)).1 = some 4251 ∧
    (((⟨16, 256, 4096, 0, 0⟩ : DoubleEndedMemoryStack).Reset.AllocSeq
      [(Side.low, 100), (Side.high, 100), (Side.low, 100)]).AllocSide
      (Side.high, 56)).1 = none ∧
    ((((⟨16, 256, 4096, 0, 0⟩ : DoubleEndedMemoryStack).Reset.AllocSeq
        [(Side.low, 100), (Side.high, 100), (Side.low, 100)]).AllocSide
        (Side.high, 55)).1 ≠ none ↔
      (⟨16, 256, 4096, 0, 0⟩ : DoubleEndedMemoryStack).Reset.SuccessfulSize
        [(Side.low, 100), (Side.high, 100), (Side.low, 100)] + 55 ≤ 256 - 1) :=
  ⟨by decide, by decide, by decide, by decide, by decide,
    DoubleEndedMemoryStack.Alloc_iff_sum ⟨16, 256, 4096, 0, 0⟩
      [(Side.low, 100), (Side.high, 100), (Side.low, 100)] (Side.high, 55)
      (by decide) (by decide)⟩


/-- C11: a failed `DoubleEndedMemoryStack` allocation has no partial effect.
For every stack and size for which `AllocLow` (resp. `AllocHigh`) returns
null, the stack after the call, in particular `current_low` and
`current_high`, is the stack before the call. -/
theorem DoubleEndedMemoryStack.AllocSide_null_unchanged (s : DoubleEndedMemoryStack)
    (size : Nat) :
    ((s.AllocLow size).1 = none → (s.AllocLow size).2 = s) ∧
    ((s.AllocHigh size).1 = none → (s.AllocHigh size).2 = s) := by
  unfold DoubleEndedMemoryStack.AllocLow DoubleEndedMemoryStack.AllocHigh
  by_cases hlt : s.GetAvailableSize < size
  · simp [hlt]
  · simp [hlt]

/-- Witness of C11: capacity 256 at 4096 with cursors 4196 and 4251 (gap 55);
`AllocLow(56)` and `AllocHigh(56)` return null and leave both cursors. -/
theorem DoubleEndedMemoryStack.AllocSide_null_unchanged_witness :
    ((⟨16, 256, 4096, 4196, 4251⟩ : DoubleEndedMemoryStack).AllocLow 56).1 = none ∧
    ((⟨16, 256, 4096, 4196, 4251⟩ : DoubleEndedMemoryStack).AllocLow 56).2 =
      ⟨16, 256, 4096, 4196, 4251⟩ ∧
    ((⟨16, 256, 4096, 4196, 4251⟩ : DoubleEndedMemoryStack).AllocHigh 56).1 = none ∧
    ((⟨16, 256, 4096, 4196, 4251⟩ : DoubleEndedMemoryStack).AllocHigh 56).2 =
      ⟨16, 256, 4096, 4196, 4251⟩ :=
  ⟨by decide,
    (DoubleEndedMemoryStack.AllocSide_null_unchanged ⟨16, 256, 4096, 4196, 4251⟩ 56).1
      (by decide),
    by decide,
    (DoubleEndedMemoryStack.AllocSide_null_unchanged ⟨16, 256, 4096, 4196, 4251⟩ 56).2
      (by decide)⟩

/-- C12 as stated fails on a stack of capacity zero: its constructor leaves
`current_low = 4096` above `current_high = 4095`, so
`current_high − current_low` is below every size (−1 as an integer, 0 when
truncated), yet the `size_t` difference the code compares with the size wraps
to `2 ^ 64 − 1` and `AllocLow(1000)` succeeds, returning 4096. -/
theorem DoubleEndedMemoryStack.AllocLow_bump_counterexample :
    DoubleEndedMemoryStack.construct 0 16 4096 = some ⟨16, 0, 4096, 4096, 4095⟩ ∧
    ((⟨16, 0, 4096, 4096, 4095⟩ : DoubleEndedMemoryStack).m_current_high : Int) -
        ((⟨16, 0, 4096, 4096, 4095⟩ : DoubleEndedMemoryStack).m_current_low : Int) < 1000 ∧
    (⟨16, 0, 4096, 4096, 4095⟩ : DoubleEndedMemoryStack).m_current_high -
        (⟨16, 0, 4096, 4096, 4095⟩ : DoubleEndedMemoryStack).m_current_low < 1000 ∧
    (⟨16, 0, 4096, 4096, 4095⟩ : DoubleEndedMemoryStack).GetAvailableSize =
      18446744073709551615 ∧
    (⟨16, 0, 4096, 4096, 4095⟩ : DoubleEndedMemoryStack).AllocLow 1000 =
      (some 4096, ⟨16, 0, 4096, 5096, 4095⟩) ∧
    ((⟨16, 0, 4096, 4096, 4095⟩ : DoubleEndedMemoryStack).AllocLow 1000).1 ≠ none := by
  refine ⟨by decide, by decide, by decide, by decide, by decide, by decide⟩

/-- C12 (amended): `AllocLow` bump-allocates upward from the low cursor.  On a
stack whose cursors are ordered (`current_low ≤ current_high`, as in every
state of a stack of capacity at least 1) it returns null if and only if
`current_high − current_low < size`; otherwise it returns the pre-call
`current_low`, the post-call `current_low` is the pre-call
`current_low + size`, and `current_high` is unchanged. -/
theorem DoubleEndedMemoryStack.AllocLow_bump (s : DoubleEndedMemoryStack) (size : Nat)
    (hle : s.m_current_low ≤ s.m_current_high) (hw : s.m_current_high < WORD) :
    ((s.AllocLow size).1 = none ↔ s.m_current_high - s.m_current_low < size) ∧
    (¬ s.m_current_high - s.m_current_low < size →
      (s.AllocLow size).1 = some s.m_current_low ∧
      (s.AllocLow size).2.m_current_low = s.m_current_low + size ∧
      (s.AllocLow size).2.m_current_high = s.m_current_high) := by
  rw [s.AllocLow_eq size hle hw]
  by_cases h : s.m_current_high - s.m_current_low < size
  · simp [h]
  · simp [h]

/-- Witness of C12 (amended): capacity 256 at 4096 with cursors 4196 and 4251;
`AllocLow(55)` returns 4196 and moves the low cursor to 4251. -/
theorem DoubleEndedMemoryStack.AllocLow_bump_witness :
    (4196 ≤ 4251 ∧ 4251 < WORD) ∧
    (⟨16, 256, 4096, 4196, 4251⟩ : DoubleEndedMemoryStack).AllocLow 55 =
      (some 4196, ⟨16, 256, 4096, 4251, 4251⟩) ∧
    (((⟨16, 256, 4096, 4196, 4251⟩ : DoubleEndedMemoryStack).AllocLow 56).1 = none ↔
      4251 - 4196 < 56) :=
  ⟨by decide, by decide,
    (DoubleEndedMemoryStack.AllocLow_bump ⟨16, 256, 4096, 4196, 4251⟩ 56
      (by decide) (by decide)).1⟩

/-- C13 as stated fails on a stack of capacity zero: its constructor leaves
`current_low = 4096` above `current_high = 4095`, so
`current_high − current_low` is below every size, yet `AllocHigh(5000)`
succeeds, and the post-call `current_high` is not `4095 − 5000` but that
difference wrapped to `2 ^ 64 − 905`. -/
theorem DoubleEndedMemoryStack.AllocHigh_bump_counterexample :
    DoubleEndedMemoryStack.construct 0 16 4096 = some ⟨16, 0, 4096, 4096, 4095⟩ ∧
    ((⟨16, 0, 4096, 4096, 4095⟩ : DoubleEndedMemoryStack).m_current_high : Int) -
        ((⟨16, 0, 4096, 4096, 4095⟩ : DoubleEndedMemoryStack).m_current_low : Int) < 5000 ∧
    (⟨16, 0, 4096, 4096, 4095⟩ : DoubleEndedMemoryStack).m_current_high -
        (⟨16, 0, 4096, 4096, 4095⟩ : DoubleEndedMemoryStack).m_current_low < 5000 ∧
    (⟨16, 0, 4096, 4096, 4095⟩ : DoubleEndedMemoryStack).AllocHigh 5000 =
      (some 4095, ⟨16, 0, 4096, 4096, 18446744073709550711⟩) ∧
    ((⟨16, 0, 4096, 4096, 4095⟩ : DoubleEndedMemoryStack).AllocHigh 5000).1 ≠ none ∧
    (((⟨16, 0, 4096, 4096, 4095⟩ : DoubleEndedMemoryStack).AllocHigh
        5000).2.m_current_high : Int) ≠ (4095 : Int) - 5000 := by
  refine ⟨by decide, by decide, by decide, by decide, by decide, by decide⟩

/-- C13 (amended): `AllocHigh` bump-allocates downward from the high cursor
with the failure condition of `AllocLow`.  On a stack whose cursors are
ordered (`current_low ≤ current_high`, as in every state of a stack of
capacity at least 1) it returns null if and only if
`current_high − current_low < size`; otherwise the post-call `current_high`
is the pre-call `current_high − size` and `current_low` is unchanged. -/
theorem DoubleEndedMemoryStack.AllocHigh_bump (s : DoubleEndedMemoryStack) (size : Nat)
    (hle : s.m_current_low ≤ s.m_current_high) (hw : s.m_current_high < WORD) :
    ((s.AllocHigh size).1 = none ↔ s.m_current_high - s.m_current_low < size) ∧
    ((s.AllocHigh size).1 = none ↔ (s.AllocLow size).1 = none) ∧
    (¬ s.m_current_high - s.m_current_low < size →
      (s.AllocHigh size).2.m_current_high = s.m_current_high - size ∧
      (s.AllocHigh size).2.m_current_low = s.m_current_low) := by
  rw [s.AllocHigh_eq size hle hw, s.AllocLow_eq size hle hw]
  by_cases h : s.m_current_high - s.m_current_low < size
  · simp [h]
  · simp [h]

/-- Witness of C13 (amended): capacity 256 at 4096 with cursors 4196 and 4251;
`AllocHigh(55)` moves the high cursor to 4196. -/
theorem DoubleEndedMemoryStack.AllocHigh_bump_witness :
    (4196 ≤ 4251 ∧ 4251 < WORD) ∧
    (⟨16, 256, 4096, 4196, 4251⟩ : DoubleEndedMemoryStack).AllocHigh 55 =
      (some 4251, ⟨16, 256, 4096, 4196, 4196⟩) ∧
    (((⟨16, 256, 4096, 4196, 4251⟩ : DoubleEndedMemoryStack).AllocHigh 56).1 = none ↔
      4251 - 4196 < 56) :=
  ⟨by decide, by decide,
    (DoubleEndedMemoryStack.AllocHigh_bump ⟨16, 256, 4096, 4196, 4251⟩ 56
      (by decide) (by decide)).1⟩


/-- C14 fails on the code: `AllocHigh` returns the high cursor it had before
the call.  On a freshly constructed stack of capacity 256 at address 4096,
`AllocHigh(16)` returns 4351, so its 16 bytes end at 4367, past
`begin + capacity = 4352`; the `AllocHigh(32)` that follows returns 4335, and
its 32 bytes contain the byte 4351 of the first block. -/
theorem DoubleEndedMemoryStack.AllocHigh_outside_region :
    DoubleEndedMemoryStack.construct 256 16 4096 = some ⟨16, 256, 4096, 4096, 4351⟩ ∧
    (⟨16, 256, 4096, 4096, 4351⟩ : DoubleEndedMemoryStack).AllocHigh 16 =
      (some 4351, ⟨16, 256, 4096, 4096, 4335⟩) ∧
    ¬ (4351 + 16 ≤ (⟨16, 256, 4096, 4096, 4351⟩ : DoubleEndedMemoryStack).m_begin +
        (⟨16, 256, 4096, 4096, 4351⟩ : DoubleEndedMemoryStack).m_size) ∧
    (⟨16, 256, 4096, 4096, 4335⟩ : DoubleEndedMemoryStack).AllocHigh 32 =
      (some 4335, ⟨16, 256, 4096, 4096, 4303⟩) ∧
    ((4351 ≤ 4351 ∧ 4351 < 4351 + 16) ∧ (4335 ≤ 4351 ∧ 4351 < 4335 + 32)) := by
  refine ⟨by decide, by decide, by decide, by decide, by decide⟩

/-- C15 as stated fails for a stack of capacity zero: the constructor's
`Reset` puts the high cursor at `begin − 1`, below the low cursor. -/
theorem DoubleEndedMemoryStack.cursors_ordered_reachable_counterexample :
    DoubleEndedMemoryStack.construct 0 16 4096 = some ⟨16, 0, 4096, 4096, 4095⟩ ∧
    (⟨16, 0, 4096, 4096, 4095⟩ : DoubleEndedMemoryStack).callSeq [] =
      some ⟨16, 0, 4096, 4096, 4095⟩ ∧
    ¬ ((⟨16, 0, 4096, 4096, 4095⟩ : DoubleEndedMemoryStack).m_current_low ≤
      (⟨16, 0, 4096, 4096, 4095⟩ : DoubleEndedMemoryStack).m_current_high) ∧
    ¬ (⟨16, 0, 4096, 4096, 4095⟩ : DoubleEndedMemoryStack).Inv := by
  refine ⟨by decide, by decide, by decide, by decide⟩

/-- C15 (amended): for a stack of capacity at least 1 whose region lies in the
address space, the invariant
`begin ≤ current_low ≤ current_high < begin + capacity` holds in every state
reachable from construction by a sequence of `AllocLow`, `AllocHigh`, `Reset`,
`RollBackLow` and `RollBackHigh` calls none of whose assertions fires; in
particular the two cursors never cross. -/
theorem DoubleEndedMemoryStack.cursors_ordered_reachable (size alignment ptr : Nat)
    (calls : List DoubleEndedMemoryStack.Call) (s0 s : DoubleEndedMemoryStack)
    (hnew : DoubleEndedMemoryStack.construct size alignment ptr = some s0)
    (hpos : 0 < size) (hsp : ptr + size < WORD) (hrun : s0.callSeq calls = some s) :
    s.m_begin ≤ s.m_current_low ∧ s.m_current_low ≤ s.m_current_high ∧
      s.m_current_high < s.m_begin + s.m_size := by
  unfold DoubleEndedMemoryStack.construct at hnew
  by_cases hp : ptr = 0
  · rw [if_pos hp] at hnew; cases hnew
  · rw [if_neg hp] at hnew
    simp only [Option.some.injEq] at hnew
    subst hnew
    have hinv0 : (DoubleEndedMemoryStack.Reset
        { m_alignment := alignment, m_size := size, m_begin := ptr,
          m_current_low := 0, m_current_high := 0 }).Inv := by
      rw [DoubleEndedMemoryStack.Reset_eq
        { m_alignment := alignment, m_size := size, m_begin := ptr,
          m_current_low := 0, m_current_high := 0 } hsp hpos]
      unfold DoubleEndedMemoryStack.Inv
      dsimp only
      omega
    exact (DoubleEndedMemoryStack.callSeq_keeps_order calls _ s hinv0 hsp hrun).1

/-- Witness of C15 (amended): construction at address 4096 with capacity 256
followed by `AllocLow(100)`, `AllocHigh(100)`, `AllocLow(100)` (fails),
`RollBackHigh(4300)`, `RollBackLow(4100)`, `Reset()`, `AllocHigh(255)`. -/
theorem DoubleEndedMemoryStack.cursors_ordered_reachable_witness :
    DoubleEndedMemoryStack.construct 256 16 4096 = some ⟨16, 256, 4096, 4096, 4351⟩ ∧
    0 < 256 ∧ 4096 + 256 < WORD ∧
    (⟨16, 256, 4096, 4096, 4351⟩ : DoubleEndedMemoryStack).callSeq
        [.AllocLow 100, .AllocHigh 100, .AllocLow 100, .RollBackHigh 4300,
          .RollBackLow 4100, .Reset, .AllocHigh 255] =
      some ⟨16, 256, 4096, 4096, 4096⟩ ∧
    ((⟨16, 256, 4096, 4096, 4096⟩ : DoubleEndedMemoryStack).m_begin ≤
        (⟨16, 256, 4096, 4096, 4096⟩ : DoubleEndedMemoryStack).m_current_low ∧
      (⟨16, 256, 4096, 4096, 4096⟩ : DoubleEndedMemoryStack).m_current_low ≤
        (⟨16, 256, 4096, 4096, 4096⟩ : DoubleEndedMemoryStack).m_current_high ∧
      (⟨16, 256, 4096, 4096, 4096⟩ : DoubleEndedMemoryStack).m_current_high <
        (⟨16, 256, 4096, 4096, 4096⟩ : DoubleEndedMemoryStack).m_begin +
          (⟨16, 256, 4096, 4096, 4096⟩ : DoubleEndedMemoryStack).m_size) :=
  ⟨by decide, by decide, by decide, by decide,
    DoubleEndedMemoryStack.cursors_ordered_reachable 256 16 4096
      [.AllocLow 100, .AllocHigh 100, .AllocLow 100, .RollBackHigh 4300,
        .RollBackLow 4100, .Reset, .AllocHigh 255]
      ⟨16, 256, 4096, 4096, 4351⟩ ⟨16, 256, 4096, 4096, 4096⟩
      (by decide) (by decide) (by decide) (by decide)⟩

/-- C16: `Reset` sets `current_low = begin` and
`current_high = begin + capacity − 1` from every state (non-null `begin`,
region in the address space), changes nothing else, and is idempotent. -/
theorem DoubleEndedMemoryStack.Reset_cursors (s : DoubleEndedMemoryStack)
    (hb : 0 < s.m_begin) (hsp : s.InAddressSpace) :
    s.Reset.m_current_low = s.m_begin ∧
    s.Reset.m_current_high = s.m_begin + s.m_size - 1 ∧
    (s.Reset.m_begin = s.m_begin ∧ s.Reset.m_size = s.m_size ∧
      s.Reset.m_alignment = s.m_alignment) ∧
    s.Reset.Reset = s.Reset := by
  unfold DoubleEndedMemoryStack.InAddressSpace at hsp
  refine ⟨rfl, ?_, ⟨rfl, rfl, rfl⟩, rfl⟩
  show wsub (wadd s.m_begin s.m_size) 1 = s.m_begin + s.m_size - 1
  rw [wadd_of_lt hsp, wsub_of_le (by omega) hsp]

/-- Witness of C16: a stack of capacity 256 at 4096 with cursors 4196 and
4251 is reset to the cursors 4096 and 4351. -/
theorem DoubleEndedMemoryStack.Reset_cursors_witness :
    (0 < 4096 ∧ (⟨16, 256, 4096, 4196, 4251⟩ : DoubleEndedMemoryStack).InAddressSpace) ∧
    (⟨16, 256, 4096, 4196, 4251⟩ : DoubleEndedMemoryStack).Reset =
      ⟨16, 256, 4096, 4096, 4351⟩ ∧
    (⟨16, 256, 4096, 4196, 4251⟩ : DoubleEndedMemoryStack).Reset.m_current_high =
      4096 + 256 - 1 :=
  ⟨by decide, by decide,
    (DoubleEndedMemoryStack.Reset_cursors ⟨16, 256, 4096, 4196, 4251⟩
      (by decide) (by decide)).2.1⟩


/-- C17: rollbacks act on one side only.  When `begin ≤ cp ≤ current_low`,
`RollBackLow(cp)` sets `current_low = cp` and leaves everything else,
`current_high` included; when `current_high ≤ cp < begin + capacity`,
`RollBackHigh(cp)` sets `current_high = cp` and leaves everything else,
`current_low` included; an `AllocLow` (resp. `AllocHigh`) that follows and
succeeds returns exactly `cp`. -/
theorem DoubleEndedMemoryStack.RollBack_one_side (s : DoubleEndedMemoryStack)
    (cp size : Nat) (hsp : s.InAddressSpace) :
    (s.m_begin ≤ cp ∧ cp ≤ s.m_current_low →
      s.RollBackLow cp = some { s with m_current_low := cp } ∧
      ∀ p, (({ s with m_current_low := cp } : DoubleEndedMemoryStack).AllocLow size).1 =
        some p → p = cp) ∧
    (s.m_current_high ≤ cp ∧ cp < s.m_begin + s.m_size →
      s.RollBackHigh cp = some { s with m_current_high := cp } ∧
      ∀ p, (({ s with m_current_high := cp } : DoubleEndedMemoryStack).AllocHigh size).1 =
        some p → p = cp) := by
  constructor
  · intro h
    refine ⟨by rw [s.RollBackLow_eq, if_pos h], ?_⟩
    intro p hp
    unfold DoubleEndedMemoryStack.AllocLow at hp
    split at hp
    · cases hp
    · simp only [Option.some.injEq] at hp
      exact hp.symm
  · intro h
    refine ⟨by rw [s.RollBackHigh_eq cp hsp, if_pos h], ?_⟩
    intro p hp
    unfold DoubleEndedMemoryStack.AllocHigh at hp
    split at hp
    · cases hp
    · simp only [Option.some.injEq] at hp
      exact hp.symm

/-- Witness of C17: capacity 256 at 4096 with cursors 4196 and 4251; roll the
low side back to 4100 and the high side back to 4300. -/
theorem DoubleEndedMemoryStack.RollBack_one_side_witness :
    (⟨16, 256, 4096, 4196, 4251⟩ : DoubleEndedMemoryStack).InAddressSpace ∧
    (⟨16, 256, 4096, 4196, 4251⟩ : DoubleEndedMemoryStack).RollBackLow 4100 =
      some ⟨16, 256, 4096, 4100, 4251⟩ ∧
    ((⟨16, 256, 4096, 4100, 4251⟩ : DoubleEndedMemoryStack).AllocLow 8).1 = some 4100 ∧
    (⟨16, 256, 4096, 4196, 4251⟩ : DoubleEndedMemoryStack).RollBackHigh 4300 =
      some ⟨16, 256, 4096, 4196, 4300⟩ ∧
    ((⟨16, 256, 4096, 4196, 4300⟩ : DoubleEndedMemoryStack).AllocHigh 8).1 = some 4300 :=
  ⟨by decide,
    ((DoubleEndedMemoryStack.RollBack_one_side ⟨16, 256, 4096, 4196, 4251⟩ 4100 8
      (by decide)).1 ⟨by decide, by decide⟩).1,
    by decide,
    ((DoubleEndedMemoryStack.RollBack_one_side ⟨16, 256, 4096, 4196, 4251⟩ 4300 8
      (by decide)).2 ⟨by decide, by decide⟩).1,
    by decide⟩

/-- C18: an invalid rollback target is rejected by the assertion and never
clamped.  `RollBackLow(cp)` asserts exactly when `cp` is outside
`[begin, current_low]`, `RollBackHigh(cp)` asserts exactly when `cp` is
outside `[current_high, begin + capacity)`; an accepted rollback sets its
cursor to `cp` itself, and when the cursors were ordered before it they are
ordered after it: no accepted rollback moves a cursor past the opposite
cursor. -/
theorem DoubleEndedMemoryStack.RollBack_rejects (s : DoubleEndedMemoryStack)
    (cp : Nat) (hsp : s.InAddressSpace) :
    (s.RollBackLow cp = none ↔ (cp < s.m_begin ∨ s.m_current_low < cp)) ∧
    (s.RollBackHigh cp = none ↔ (cp < s.m_current_high ∨ s.m_begin + s.m_size ≤ cp)) ∧
    (∀ s', s.RollBackLow cp = some s' →
      s'.m_current_low = cp ∧ s'.m_current_high = s.m_current_high ∧
      (s.m_current_low ≤ s.m_current_high → s'.m_current_low ≤ s'.m_current_high)) ∧
    (∀ s', s.RollBackHigh cp = some s' →
      s'.m_current_high = cp ∧ s'.m_current_low = s.m_current_low ∧
      (s.m_current_low ≤ s.m_current_high → s'.m_current_low ≤ s'.m_current_high)) := by
  rw [s.RollBackLow_eq, s.RollBackHigh_eq cp hsp]
  refine ⟨?_, ?_, ?_, ?_⟩
  · by_cases h : s.m_begin ≤ cp ∧ cp ≤ s.m_current_low
    · rw [if_pos h]
      exact ⟨fun h' => (by cases h'), fun h' => (by omega)⟩
    · rw [if_neg h]
      exact ⟨fun _ => (by omega), fun _ => rfl⟩
  · by_cases h : s.m_current_high ≤ cp ∧ cp < s.m_begin + s.m_size
    · rw [if_pos h]
      exact ⟨fun h' => (by cases h'), fun h' => (by omega)⟩
    · rw [if_neg h]
      exact ⟨fun _ => (by omega), fun _ => rfl⟩
  · intro s' hs'
    by_cases h : s.m_begin ≤ cp ∧ cp ≤ s.m_current_low
    · rw [if_pos h] at hs'
      simp only [Option.some.injEq] at hs'
      subst hs'
      exact ⟨rfl, rfl, fun hle => (by dsimp only; omega)⟩
    · rw [if_neg h] at hs'
      cases hs'
  · intro s' hs'
    by_cases h : s.m_current_high ≤ cp ∧ cp < s.m_begin + s.m_size
    · rw [if_pos h] at hs'
      simp only [Option.some.injEq] at hs'
      subst hs'
      exact ⟨rfl, rfl, fun hle => (by dsimp only; omega)⟩
    · rw [if_neg h] at hs'
      cases hs'

/-- Witness of C18: capacity 256 at 4096 with cursors 4196 and 4251; the
targets 4197 (low side) and 4250, 4352 (high side) are rejected. -/
theorem DoubleEndedMemoryStack.RollBack_rejects_witness :
    (⟨16, 256, 4096, 4196, 4251⟩ : DoubleEndedMemoryStack).InAddressSpace ∧
    (⟨16, 256, 4096, 4196, 4251⟩ : DoubleEndedMemoryStack).RollBackLow 4197 = none ∧
    (⟨16, 256, 4096, 4196, 4251⟩ : DoubleEndedMemoryStack).RollBackHigh 4250 = none ∧
    (⟨16, 256, 4096, 4196, 4251⟩ : DoubleEndedMemoryStack).RollBackHigh 4352 = none ∧
    (⟨16, 256, 4096, 4196, 4251⟩ : DoubleEndedMemoryStack).RollBackHigh 4351 =
      some ⟨16, 256, 4096, 4196, 4351⟩ :=
  ⟨by decide,
    (DoubleEndedMemoryStack.RollBack_rejects ⟨16, 256, 4096, 4196, 4251⟩ 4197
      (by decide)).1.2 (Or.inr (by decide)),
    by decide, by decide, by decide⟩

/-- C19: two allocators, of any element types, compare equal with
`operator==` if and only if they point to the same memory arena, and
`operator!=` returns exactly the negation of `operator==`. -/
theorem MemoryArena.Allocator.operatorEq_same_arena {DataT DataU : Type}
    (a : MemoryArena.Allocator DataT) (rhs : MemoryArena.Allocator DataU) :
    (a.operatorEq rhs = true ↔ a.m_memory_arena = rhs.m_memory_arena) ∧
    a.operatorNe rhs = !(a.operatorEq rhs) := by
  refine ⟨?_, rfl⟩
  unfold MemoryArena.Allocator.operatorEq
  exact beq_iff_eq

/-- Witness of C19: allocators of two element types bound to the arena at
address 8192 are equal; one bound to the arena at 12288 differs. -/
theorem MemoryArena.Allocator.operatorEq_same_arena_witness :
    (⟨8192⟩ : MemoryArena.Allocator Nat).operatorEq (⟨8192⟩ : MemoryArena.Allocator Bool) =
      true ∧
    (⟨8192⟩ : MemoryArena.Allocator Nat).operatorEq (⟨12288⟩ : MemoryArena.Allocator Bool) =
      false ∧
    (⟨8192⟩ : MemoryArena.Allocator Nat).operatorNe (⟨12288⟩ : MemoryArena.Allocator Bool) =
      true :=
  ⟨(MemoryArena.Allocator.operatorEq_same_arena (⟨8192⟩ : MemoryArena.Allocator Nat)
      (⟨8192⟩ : MemoryArena.Allocator Bool)).1.2 rfl,
    by decide, by decide⟩


/-- C21: `deallocate(pointer, count)` is a no-op.  For every pointer and
count the allocator and the arena it is bound to (current block, current
block position, used blocks, available blocks) are the same after the call as
before, so an `Alloc` that follows returns what it would have returned
without the `deallocate`. -/
theorem MemoryArena.Allocator.deallocate_noop {DataT : Type}
    (a : MemoryArena.Allocator DataT) (arena : MemoryArena) (data count size raw : Nat) :
    (a.deallocate arena data count).1 = a ∧
    (a.deallocate arena data count).2 = arena ∧
    (a.deallocate arena data count).2.Alloc size raw = arena.Alloc size raw := by
  unfold MemoryArena.Allocator.deallocate
  exact ⟨rfl, rfl, rfl⟩

/-- Witness of C21: a `deallocate` on an allocator bound to an arena with a
1024-byte block at 65536 and 1000 bytes used. -/
theorem MemoryArena.Allocator.deallocate_noop_witness :
    ((⟨8192⟩ : MemoryArena.Allocator Nat).deallocate
      ⟨16, 1024, ⟨1024, 65536⟩, 1000, [], []⟩ 65536 250).2.Alloc 24 0 =
      (66536, ⟨16, 1024, ⟨1024, 65536⟩, 1024, [], []⟩) ∧
    ((⟨8192⟩ : MemoryArena.Allocator Nat).deallocate
      ⟨16, 1024, ⟨1024, 65536⟩, 1000, [], []⟩ 65536 250).2 =
      ⟨16, 1024, ⟨1024, 65536⟩, 1000, [], []⟩ :=
  ⟨by decide,
    (MemoryArena.Allocator.deallocate_noop (⟨8192⟩ : MemoryArena.Allocator Nat)
      ⟨16, 1024, ⟨1024, 65536⟩, 1000, [], []⟩ 65536 250 24 0).2.1⟩

/-- C22: the fast path of `Alloc`.  For every arena and size with
`current_block_position + size ≤ current_block.capacity`, `Alloc(size)`
returns the address `current_block.base_pointer + current_block_position`,
advances the position by exactly `size`, and leaves the current block, the
used blocks and the available blocks unchanged. -/
theorem MemoryArena.Alloc_fast_path (a : MemoryArena) (size raw : Nat)
    (hfit : a.m_current_block_pos + size ≤ a.m_current_block.first) :
    (a.Alloc size raw).1 = a.m_current_block.second + a.m_current_block_pos ∧
    (a.Alloc size raw).2.m_current_block_pos = a.m_current_block_pos + size ∧
    (a.Alloc size raw).2.m_current_block = a.m_current_block ∧
    (a.Alloc size raw).2.m_used_blocks = a.m_used_blocks ∧
    (a.Alloc size raw).2.m_available_blocks = a.m_available_blocks := by
  rw [a.Alloc_fast size raw hfit]
  exact ⟨rfl, rfl, rfl, rfl, rfl⟩

/-- Witness of C22: a 1024-byte block at 65536 with 1000 bytes used serves a
request of 24 bytes at 66536. -/
theorem MemoryArena.Alloc_fast_path_witness :
    1000 + 24 ≤ 1024 ∧
    (⟨16, 1024, ⟨1024, 65536⟩, 1000, [], []⟩ : MemoryArena).Alloc 24 0 =
      (66536, ⟨16, 1024, ⟨1024, 65536⟩, 1024, [], []⟩) ∧
    ((⟨16, 1024, ⟨1024, 65536⟩, 1000, [], []⟩ : MemoryArena).Alloc 24 0).1 =
      65536 + 1000 :=
  ⟨by decide, by decide,
    (MemoryArena.Alloc_fast_path ⟨16, 1024, ⟨1024, 65536⟩, 1000, [], []⟩ 24 0
      (by decide)).1⟩

/-- C23: the slow path of `Alloc` with no reusable block.  When the request
does not fit in the current block and no available block has capacity at
least `max(size, maximum_block_size)`, `Alloc` returns null exactly when the
raw allocator fails; otherwise the block of capacity exactly
`max(size, maximum_block_size)` obtained from the raw allocator is the
current block, the request is served at its position 0 (the returned address
is the address of the block and the position after the call is `size`), and
the available blocks are untouched. -/
theorem MemoryArena.Alloc_new_block (a : MemoryArena) (size raw : Nat)
    (hnofit : ¬ a.m_current_block_pos + size ≤ a.m_current_block.first)
    (hnone : ∀ b ∈ a.m_available_blocks, b.first < max size a.m_maximum_block_size) :
    ((a.Alloc size raw).1 = 0 ↔ raw = 0) ∧
    (raw ≠ 0 →
      (a.Alloc size raw).1 = raw ∧
      (a.Alloc size raw).2.m_current_block = ⟨max size a.m_maximum_block_size, raw⟩ ∧
      (a.Alloc size raw).2.m_current_block_pos = size ∧
      (a.Alloc size raw).2.m_available_blocks = a.m_available_blocks) := by
  have hsearch := (MemoryArena.takeFirstFit_none _ _).2 hnone
  unfold MemoryArena.Alloc
  rw [if_neg hnofit, hsearch]
  by_cases hraw : raw = 0
  · simp [hraw]
  · simp [hraw]

/-- Witness of C23: a full 1024-byte block and one available block of 1024
bytes; a request of 2000 bytes is served from a new block of 2000 bytes. -/
theorem MemoryArena.Alloc_new_block_witness :
    (⟨16, 1024, ⟨1024, 65536⟩, 1000, [], [⟨1024, 131072⟩]⟩ : MemoryArena).Alloc 2000 262144 =
      (262144, ⟨16, 1024, ⟨2000, 262144⟩, 2000, [⟨1024, 65536⟩], [⟨1024, 131072⟩]⟩) ∧
    (((⟨16, 1024, ⟨1024, 65536⟩, 1000, [], [⟨1024, 131072⟩]⟩ : MemoryArena).Alloc
      2000 262144).1 = 0 ↔ 262144 = 0) :=
  ⟨by decide,
    (MemoryArena.Alloc_new_block ⟨16, 1024, ⟨1024, 65536⟩, 1000, [], [⟨1024, 131072⟩]⟩
      2000 262144 (by decide) (by decide)).1⟩


/-- C24: `Reset` only moves blocks.  After `Reset` the used blocks are empty,
the current block position is 0, the available blocks are the blocks that
were in the current block or the used blocks followed by the blocks that were
already available, the blocks owned by the arena are the same blocks as
before the call, and `GetTotalBlockSize` is the same as before the call (for
an arena whose current block, when null, has capacity 0). -/
theorem MemoryArena.Reset_moves_blocks (a : MemoryArena)
    (hnull : a.m_current_block.second = 0 → a.m_current_block.first = 0) :
    a.Reset.m_used_blocks = [] ∧
    a.Reset.m_current_block_pos = 0 ∧
    (∃ moved, a.Reset.m_available_blocks = moved ++ a.m_available_blocks ∧
      moved.Perm ((if a.m_current_block.second = 0 then [] else [a.m_current_block]) ++
        a.m_used_blocks)) ∧
    a.Reset.ownedBlocks.Perm a.ownedBlocks ∧
    a.Reset.GetTotalBlockSize = a.GetTotalBlockSize := by
  refine ⟨rfl, rfl, ?_, ?_, ?_⟩
  · refine ⟨(if a.m_current_block.second = 0 then [] else [a.m_current_block]) ++
      a.m_used_blocks.reverse, rfl, ?_⟩
    exact List.Perm.append_left _ (List.reverse_perm _)
  · unfold MemoryArena.ownedBlocks MemoryArena.Reset
    simp only [if_true, List.nil_append]
    exact List.Perm.append_right _ (List.Perm.append_left _ (List.reverse_perm _))
  · unfold MemoryArena.GetTotalBlockSize MemoryArena.Reset
    by_cases h : a.m_current_block.second = 0
    · simp [h, hnull h, List.sum_reverse]
    · simp [h, List.sum_reverse]
      omega

/-- Witness of C24: current block of 1024 bytes at 131072, one used block of
2048 bytes and one available block of 1024 bytes. -/
theorem MemoryArena.Reset_moves_blocks_witness :
    ((131072 = 0 → 1024 = 0)) ∧
    (⟨16, 1024, ⟨1024, 131072⟩, 100, [⟨2048, 65536⟩], [⟨1024, 262144⟩]⟩ : MemoryArena).Reset =
      ⟨16, 1024, ⟨0, 0⟩, 0, [], [⟨1024, 131072⟩, ⟨2048, 65536⟩, ⟨1024, 262144⟩]⟩ ∧
    (⟨16, 1024, ⟨1024, 131072⟩, 100, [⟨2048, 65536⟩],
      [⟨1024, 262144⟩]⟩ : MemoryArena).Reset.GetTotalBlockSize =
      (⟨16, 1024, ⟨1024, 131072⟩, 100, [⟨2048, 65536⟩],
        [⟨1024, 262144⟩]⟩ : MemoryArena).GetTotalBlockSize :=
  ⟨by decide, by decide,
    (MemoryArena.Reset_moves_blocks
      ⟨16, 1024, ⟨1024, 131072⟩, 100, [⟨2048, 65536⟩], [⟨1024, 262144⟩]⟩
      (by decide)).2.2.2.2⟩

/-- C25: the arena invariant.  In every state reached from construction by
`Alloc`, `AllocData` and `Reset` calls, `current_block_position` is at most
the capacity of the current block, and every non-null pointer `p` returned by
`Alloc(size)` in such a state satisfies `base_pointer ≤ p` and
`p + size ≤ base_pointer + capacity` for the block that is current when the
request is served. -/
theorem MemoryArena.position_inside_reachable (maximum_block_size alignment : Nat)
    (calls : List MemoryArena.Call) (size raw : Nat) :
    ((MemoryArena.construct maximum_block_size alignment).callSeq calls).m_current_block_pos ≤
      ((MemoryArena.construct maximum_block_size alignment).callSeq calls).m_current_block.first ∧
    ((((MemoryArena.construct maximum_block_size alignment).callSeq calls).Alloc size raw).1 ≠ 0 →
      (((MemoryArena.construct maximum_block_size alignment).callSeq calls).Alloc
          size raw).2.m_current_block.second ≤
        (((MemoryArena.construct maximum_block_size alignment).callSeq calls).Alloc size raw).1 ∧
      (((MemoryArena.construct maximum_block_size alignment).callSeq calls).Alloc size raw).1 +
          size ≤
        (((MemoryArena.construct maximum_block_size alignment).callSeq calls).Alloc
            size raw).2.m_current_block.second +
          (((MemoryArena.construct maximum_block_size alignment).callSeq calls).Alloc
            size raw).2.m_current_block.first) := by
  refine ⟨?_, ?_⟩
  · exact MemoryArena.callSeq_pos_le calls _ (le_refl _)
  · exact (MemoryArena.Alloc_inside _ size raw).2

/-- Witness of C25: three calls on a fresh arena, then a request of 100
bytes, which is served from a new block at 131072. -/
theorem MemoryArena.position_inside_reachable_witness :
    (MemoryArena.construct 1024 16).callSeq
        [.Alloc 1000 65536, .Reset, .AllocData 4 10 true 0] =
      ⟨16, 1024, ⟨1024, 65536⟩, 40, [], []⟩ ∧
    (⟨16, 1024, ⟨1024, 65536⟩, 40, [], []⟩ : MemoryArena).Alloc 1000 131072 =
      (131072, ⟨16, 1024, ⟨1024, 131072⟩, 1000, [⟨1024, 65536⟩], []⟩) ∧
    ((MemoryArena.construct 1024 16).callSeq
        [.Alloc 1000 65536, .Reset, .AllocData 4 10 true 0]).m_current_block_pos ≤
      ((MemoryArena.construct 1024 16).callSeq
        [.Alloc 1000 65536, .Reset, .AllocData 4 10 true 0]).m_current_block.first :=
  ⟨by decide, by decide,
    (MemoryArena.position_inside_reachable 1024 16
      [.Alloc 1000 65536, .Reset, .AllocData 4 10 true 0] 1000 131072).1⟩


/-- C26: the arena scenario.  On a fresh arena with maximum block size 1024
and alignment 16, `Alloc(1000)` is served from a new 1024-byte block and
leaves the position at 1000; the `Alloc(100)` that follows makes a second
1024-byte block current and puts the first block in the used blocks; the
`Reset()` that follows leaves both blocks in the available blocks, the most
recently used first; and the next `Alloc`, of a size between 1 and 1024, is
served at position 0 of the most recently used block, whatever the raw
allocator would return: no block is created.  `raw1` and `raw2` are the
addresses the raw allocator returns for the two blocks. -/
theorem MemoryArena.scenario_two_blocks (raw1 raw2 raw3 size : Nat)
    (h1 : raw1 ≠ 0) (h2 : raw2 ≠ 0) (hpos : 0 < size) (hle : size ≤ 1024) :
    (MemoryArena.construct 1024 16).Alloc 1000 raw1 =
      (raw1, ⟨16, 1024, ⟨1024, raw1⟩, 1000, [], []⟩) ∧
    (⟨16, 1024, ⟨1024, raw1⟩, 1000, [], []⟩ : MemoryArena).Alloc 100 raw2 =
      (raw2, ⟨16, 1024, ⟨1024, raw2⟩, 100, [⟨1024, raw1⟩], []⟩) ∧
    (⟨16, 1024, ⟨1024, raw2⟩, 100, [⟨1024, raw1⟩], []⟩ : MemoryArena).Reset =
      ⟨16, 1024, ⟨0, 0⟩, 0, [], [⟨1024, raw2⟩, ⟨1024, raw1⟩]⟩ ∧
    (⟨16, 1024, ⟨0, 0⟩, 0, [], [⟨1024, raw2⟩, ⟨1024, raw1⟩]⟩ : MemoryArena).Alloc size raw3 =
      (raw2, ⟨16, 1024, ⟨1024, raw2⟩, size, [], [⟨1024, raw1⟩]⟩) := by
  refine ⟨?_, ?_, ?_, ?_⟩
  · simp [MemoryArena.Alloc, MemoryArena.construct, MemoryArena.takeFirstFit, h1]
  · simp [MemoryArena.Alloc, MemoryArena.takeFirstFit, h2]
  · simp [MemoryArena.Reset, h2]
  · have hnofit : ¬ (0 + size ≤ 0) := by omega
    have hmax : max size 1024 = 1024 := max_eq_right hle
    unfold MemoryArena.Alloc
    simp only [hnofit, if_false, hmax, lt_irrefl]
    rw [MemoryArena.takeFirstFit_head 1024 ⟨1024, raw2⟩ [⟨1024, raw1⟩] (le_refl _)]

/-- Witness of C26: the two blocks at 65536 and 131072, and a next request of
64 bytes for which the raw allocator would fail. -/
theorem MemoryArena.scenario_two_blocks_witness :
    (65536 ≠ 0 ∧ 131072 ≠ 0 ∧ 0 < 64 ∧ 64 ≤ 1024) ∧
    (((((MemoryArena.construct 1024 16).Alloc 1000 65536).2.Alloc 100 131072).2.Reset).Alloc
      64 0) = (131072, ⟨16, 1024, ⟨1024, 131072⟩, 64, [], [⟨1024, 65536⟩]⟩) ∧
    (⟨16, 1024, ⟨0, 0⟩, 0, [], [⟨1024, 131072⟩, ⟨1024, 65536⟩]⟩ : MemoryArena).Alloc 64 0 =
      (131072, ⟨16, 1024, ⟨1024, 131072⟩, 64, [], [⟨1024, 65536⟩]⟩) :=
  ⟨by decide, by decide,
    (MemoryArena.scenario_two_blocks 65536 131072 0 64
      (by decide) (by decide) (by decide) (by decide)).2.2.2⟩

/-- C27: reset reproducibility.  Take a sequence of allocations made right
after a `Reset` (or on a fresh arena) whose first allocation returns a
non-null pointer and whose other allocations all fit in the block of the
first one.  After the sequence and a `Reset`, the first allocation of the
same sequence returns the same address as the first allocation of the first
cycle, and the whole second cycle returns the pointers of the first cycle and
ends in the arena the first cycle ended in, whatever the raw allocator would
return: no block is created. -/
theorem MemoryArena.Reset_reproduces (a : MemoryArena) (size raw raw' : Nat)
    (rest rest' : List (Nat × Nat))
    (hp : (a.Reset.Alloc size raw).1 ≠ 0)
    (hfit : (a.Reset.Alloc size raw).2.m_current_block_pos + (rest.map Prod.fst).sum ≤
      (a.Reset.Alloc size raw).2.m_current_block.first)
    (hsame : rest'.map Prod.fst = rest.map Prod.fst) :
    ((a.Reset.AllocSeq ((size, raw) :: rest)).2.Reset.Alloc size raw').1 =
      (a.Reset.Alloc size raw).1 ∧
    (a.Reset.AllocSeq ((size, raw) :: rest)).2.Reset.AllocSeq ((size, raw') :: rest') =
      a.Reset.AllocSeq ((size, raw) :: rest) := by
  have hreset : a.Reset = ⟨a.m_alignment, a.m_maximum_block_size, ⟨0, 0⟩, 0, [],
      (if a.m_current_block.second = 0 then [] else [a.m_current_block]) ++
        a.m_used_blocks.reverse ++ a.m_available_blocks⟩ := rfl
  rw [hreset] at hp hfit ⊢
  obtain ⟨hsize, b, av, hb0, hbcap, hfirst⟩ :=
    MemoryArena.Alloc_first a.m_alignment a.m_maximum_block_size size raw _ hp
  rw [hfirst] at hfit
  have hend : ((⟨a.m_alignment, a.m_maximum_block_size, b, size, [], av⟩ :
      MemoryArena).AllocSeq rest).2 =
      ⟨a.m_alignment, a.m_maximum_block_size, b, size + (rest.map Prod.fst).sum, [], av⟩ :=
    MemoryArena.AllocSeq_advances rest _ hfit
  have hcycle : ((⟨a.m_alignment, a.m_maximum_block_size, ⟨0, 0⟩, 0, [],
      (if a.m_current_block.second = 0 then [] else [a.m_current_block]) ++
        a.m_used_blocks.reverse ++ a.m_available_blocks⟩ : MemoryArena).AllocSeq
      ((size, raw) :: rest)).2.Reset =
      ⟨a.m_alignment, a.m_maximum_block_size, ⟨0, 0⟩, 0, [], b :: av⟩ := by
    simp only [MemoryArena.AllocSeq, hfirst, hend]
    simp [MemoryArena.Reset, hb0]
  have hsecond : (⟨a.m_alignment, a.m_maximum_block_size, ⟨0, 0⟩, 0, [], b :: av⟩ :
      MemoryArena).Alloc size raw' =
      (b.second, ⟨a.m_alignment, a.m_maximum_block_size, b, size, [], av⟩) := by
    have hnofit : ¬ (0 + size ≤ 0) := by omega
    unfold MemoryArena.Alloc
    simp only [hnofit, if_false, lt_irrefl]
    rw [MemoryArena.takeFirstFit_head _ b av hbcap]
  rw [hcycle]
  refine ⟨by rw [hsecond, hfirst], ?_⟩
  simp only [MemoryArena.AllocSeq, hsecond, hfirst]
  rw [MemoryArena.AllocSeq_raw_irrelevant rest _ rest' hfit hsame]

/-- Witness of C27: on a fresh arena with maximum block size 1024 the requests
1000 and 24 are served from one block at 65536; after `Reset` the same
requests return 65536 and 66536 again although the raw allocator would
fail. -/
theorem MemoryArena.Reset_reproduces_witness :
    ((MemoryArena.construct 1024 16).Reset.AllocSeq [(1000, 65536), (24, 0)]) =
      ([65536, 66536], ⟨16, 1024, ⟨1024, 65536⟩, 1024, [], []⟩) ∧
    (((MemoryArena.construct 1024 16).Reset.AllocSeq
        [(1000, 65536), (24, 0)]).2.Reset.Alloc 1000 0).1 =
      ((MemoryArena.construct 1024 16).Reset.Alloc 1000 65536).1 ∧
    ((MemoryArena.construct 1024 16).Reset.AllocSeq
        [(1000, 65536), (24, 0)]).2.Reset.AllocSeq [(1000, 0), (24, 0)] =
      (MemoryArena.construct 1024 16).Reset.AllocSeq [(1000, 65536), (24, 0)] :=
  ⟨by decide,
    MemoryArena.Reset_reproduces (MemoryArena.construct 1024 16) 1000 65536 0
      [(24, 0)] [(24, 0)] (by decide) (by decide) (by decide)⟩


/-- C28: stack operations only move cursors.  Every `Alloc`, `Reset` and
accepted `RollBack` of a `SingleEndedMemoryStack`, and every `AllocLow`,
`AllocHigh`, `Reset` and accepted `RollBackLow` and `RollBackHigh` of a
`DoubleEndedMemoryStack`, leaves `begin`, the capacity and the alignment
unchanged. -/
theorem stack_calls_keep_region (s : SingleEndedMemoryStack) (d : DoubleEndedMemoryStack)
    (size ptr : Nat) :
    (s.SameRegion (s.Alloc size).2 ∧ s.SameRegion s.Reset ∧
      (∀ s', s.RollBack ptr = some s' → s.SameRegion s')) ∧
    (d.SameRegion (d.AllocLow size).2 ∧ d.SameRegion (d.AllocHigh size).2 ∧
      d.SameRegion d.Reset ∧
      (∀ d', d.RollBackLow ptr = some d' → d.SameRegion d') ∧
      (∀ d', d.RollBackHigh ptr = some d' → d.SameRegion d')) := by
  unfold SingleEndedMemoryStack.SameRegion DoubleEndedMemoryStack.SameRegion
  refine ⟨⟨?_, ⟨rfl, rfl, rfl⟩, ?_⟩, ⟨?_, ?_, ⟨rfl, rfl, rfl⟩, ?_, ?_⟩⟩
  · unfold SingleEndedMemoryStack.Alloc
    split <;> exact ⟨rfl, rfl, rfl⟩
  · intro s' h
    unfold SingleEndedMemoryStack.RollBack at h
    split at h
    · cases h
    · simp only [Option.some.injEq] at h
      subst h
      exact ⟨rfl, rfl, rfl⟩
  · unfold DoubleEndedMemoryStack.AllocLow
    split <;> exact ⟨rfl, rfl, rfl⟩
  · unfold DoubleEndedMemoryStack.AllocHigh
    split <;> exact ⟨rfl, rfl, rfl⟩
  · intro d' h
    unfold DoubleEndedMemoryStack.RollBackLow at h
    split at h
    · cases h
    · simp only [Option.some.injEq] at h
      subst h
      exact ⟨rfl, rfl, rfl⟩
  · intro d' h
    unfold DoubleEndedMemoryStack.RollBackHigh at h
    split at h
    · cases h
    · simp only [Option.some.injEq] at h
      subst h
      exact ⟨rfl, rfl, rfl⟩

/-- Witness of C28: an accepted `RollBack` and an accepted `RollBackHigh` on
stacks of capacity 256 at 4096. -/
theorem stack_calls_keep_region_witness :
    (⟨16, 256, 4096, 4296⟩ : SingleEndedMemoryStack).RollBack 4100 =
      some ⟨16, 256, 4096, 4100⟩ ∧
    (⟨16, 256, 4096, 4296⟩ : SingleEndedMemoryStack).SameRegion ⟨16, 256, 4096, 4100⟩ ∧
    (⟨16, 256, 4096, 4196, 4251⟩ : DoubleEndedMemoryStack).RollBackHigh 4300 =
      some ⟨16, 256, 4096, 4196, 4300⟩ ∧
    (⟨16, 256, 4096, 4196, 4251⟩ : DoubleEndedMemoryStack).SameRegion
      ⟨16, 256, 4096, 4196, 4300⟩ :=
  ⟨by decide,
    (stack_calls_keep_region ⟨16, 256, 4096, 4296⟩ ⟨16, 256, 4096, 4196, 4251⟩
      8 4100).1.2.2 ⟨16, 256, 4096, 4100⟩ (by decide),
    by decide,
    (stack_calls_keep_region ⟨16, 256, 4096, 4296⟩ ⟨16, 256, 4096, 4196, 4251⟩
      8 4300).2.2.2.2.2 ⟨16, 256, 4096, 4196, 4300⟩ (by decide)⟩

/-- C29: stack construction fails exactly when the raw aligned allocation
fails.  With `ptr` the value `AllocAligned(capacity, alignment)` returns,
constructing a `SingleEndedMemoryStack` or a `DoubleEndedMemoryStack` throws
`std::bad_alloc` if and only if `ptr` is null; otherwise it yields a stack
whose `begin` is `ptr`, whose capacity and alignment are the arguments, and
whose cursors are in the `Reset` state. -/
theorem construct_bad_alloc_iff (capacity alignment ptr : Nat) :
    (SingleEndedMemoryStack.construct capacity alignment ptr = none ↔ ptr = 0) ∧
    (DoubleEndedMemoryStack.construct capacity alignment ptr = none ↔ ptr = 0) ∧
    (ptr ≠ 0 → ∃ s, SingleEndedMemoryStack.construct capacity alignment ptr = some s ∧
      s.m_begin = ptr ∧ s.m_size = capacity ∧ s.m_alignment = alignment ∧
      s.m_current = ptr ∧ s.Reset = s) ∧
    (ptr ≠ 0 → ∃ d, DoubleEndedMemoryStack.construct capacity alignment ptr = some d ∧
      d.m_begin = ptr ∧ d.m_size = capacity ∧ d.m_alignment = alignment ∧
      d.m_current_low = ptr ∧ d.m_current_high = wsub (wadd ptr capacity) 1 ∧
      d.Reset = d) := by
  unfold SingleEndedMemoryStack.construct DoubleEndedMemoryStack.construct
  by_cases hp : ptr = 0
  · simp [hp]
  · simp only [if_neg hp]
    refine ⟨⟨fun h => (by cases h), fun h => absurd h hp⟩,
      ⟨fun h => (by cases h), fun h => absurd h hp⟩, ?_, ?_⟩
    · intro _
      exact ⟨_, rfl, rfl, rfl, rfl, rfl, rfl⟩
    · intro _
      exact ⟨_, rfl, rfl, rfl, rfl, rfl, rfl, rfl⟩

/-- Witness of C29: construction with capacity 256 and alignment 16 when the
raw allocation returns 4096, and when it returns null. -/
theorem construct_bad_alloc_iff_witness :
    SingleEndedMemoryStack.construct 256 16 4096 = some ⟨16, 256, 4096, 4096⟩ ∧
    DoubleEndedMemoryStack.construct 256 16 4096 = some ⟨16, 256, 4096, 4096, 4351⟩ ∧
    SingleEndedMemoryStack.construct 256 16 0 = none ∧
    DoubleEndedMemoryStack.construct 256 16 0 = none :=
  ⟨by decide, by decide,
    (construct_bad_alloc_iff 256 16 0).1.2 rfl,
    (construct_bad_alloc_iff 256 16 0).2.1.2 rfl⟩

/-- C30: rebinding an allocator preserves its arena.  For every allocator `a`
of element type `DataU`, the allocator of element type `DataT` built from it
by the converting constructor, and every copy and every move of `a`, compare
equal to `a`; and `operator==` is reflexive, symmetric and transitive, across
element types. -/
theorem MemoryArena.Allocator.rebind_equal {DataT DataU DataV : Type}
    (a : MemoryArena.Allocator DataU) (b : MemoryArena.Allocator DataT)
    (c : MemoryArena.Allocator DataV) :
    (MemoryArena.Allocator.convertConstruct DataT a).operatorEq a = true ∧
    a.copyConstruct.operatorEq a = true ∧
    a.moveConstruct.operatorEq a = true ∧
    a.operatorEq a = true ∧
    a.operatorEq b = b.operatorEq a ∧
    (a.operatorEq b = true → b.operatorEq c = true → a.operatorEq c = true) := by
  unfold MemoryArena.Allocator.operatorEq MemoryArena.Allocator.convertConstruct
    MemoryArena.Allocator.copyConstruct MemoryArena.Allocator.moveConstruct
  refine ⟨by simp, by simp, by simp, by simp, ?_, ?_⟩
  · by_cases h : a.m_memory_arena = b.m_memory_arena
    · simp [h]
    · have h' : ¬ b.m_memory_arena = a.m_memory_arena := fun e => h e.symm
      simp [h, h']
  · intro h1 h2
    have e1 : a.m_memory_arena = b.m_memory_arena := by simpa using h1
    have e2 : b.m_memory_arena = c.m_memory_arena := by simpa using h2
    simp [e1, e2]

/-- Witness of C30: an allocator bound to the arena at 8192, rebound to two
other element types. -/
theorem MemoryArena.Allocator.rebind_equal_witness :
    (MemoryArena.Allocator.convertConstruct Bool
      (⟨8192⟩ : MemoryArena.Allocator Nat)).operatorEq (⟨8192⟩ : MemoryArena.Allocator Nat) =
      true ∧
    ((⟨8192⟩ : MemoryArena.Allocator Nat).operatorEq (⟨8192⟩ : MemoryArena.Allocator Bool) =
        true →
      (⟨8192⟩ : MemoryArena.Allocator Bool).operatorEq (⟨8192⟩ : MemoryArena.Allocator Int) =
        true →
      (⟨8192⟩ : MemoryArena.Allocator Nat).operatorEq (⟨8192⟩ : MemoryArena.Allocator Int) =
        true) :=
  ⟨(MemoryArena.Allocator.rebind_equal (⟨8192⟩ : MemoryArena.Allocator Nat)
      (⟨8192⟩ : MemoryArena.Allocator Bool) (⟨8192⟩ : MemoryArena.Allocator Int)).1,
    (MemoryArena.Allocator.rebind_equal (⟨8192⟩ : MemoryArena.Allocator Nat)
      (⟨8192⟩ : MemoryArena.Allocator Bool) (⟨8192⟩ : MemoryArena.Allocator Int)).2.2.2.2.2⟩


end mage
